import Mathlib

/-!
# ASR33 teletype: the ANSI escape processor

A shallow embedding of `firmware/teensytty/ansi_escape.cpp`.

* Bytes (`uint8_t`, `char`) are natural numbers below 256; `int` values are integers,
  reduced into the 32-bit range where the source adds or subtracts.
* `outbuf` is byte memory indexed from the start of the array.  `pLen` is set to
  `outbuf` by `init` and by `writeOutput` and is never assigned anything else, so the
  length prefix is `outbuf[0]`; `pBuf` is kept as an index into `outbuf`.
* `pResponse` is a pointer: null, a string literal, or the scratch array `retbuf`.
* The class is declared in `ansi_escape.h`, which also defines `MAXESCLEN`, the four
  APC command codes and `IDENT_SEQUENCE`; these are collected in `Header`.
-/

namespace ASR33

/-! ## Constants of the translation unit -/

/-- The constants that `ansi_escape.cpp` takes from `ansi_escape.h`. -/
structure Header where
  MAXESCLEN : Nat
  APC_RX_NLCR_OFF : Nat
  APC_RX_NLCR_ON : Nat
  APC_RX_DELAYS_OFF : Nat
  APC_RX_DELAYS_ON : Nat
  IDENT_SEQUENCE : List Nat

/-- `#define MAX_COLUMNS 71` -/
def MAX_COLUMNS : Int := 71

/-- `#define ESC '\033'` -/
def ESC : Nat := 27

/-- `#define NL '\n'` -/
def NL : Nat := 10

/-- `#define CR '\r'` -/
def CR : Nat := 13

/-- `#define SPACES "..."`: a string literal of 75 blanks. -/
def SPACES : List Nat := List.replicate 75 32

/-- `#define CR_SPACES "\r..."`: a carriage return and 73 blanks. -/
def CR_SPACES : List Nat := 13 :: List.replicate 73 32

/-! ## C library and Arduino primitives used by the source -/

/-- Modelled from the spec: `isPrintable` is not defined under src/ (on Arduino it is
the core wrapper of `isprint`).  The spec calls printable "visible ASCII excluding
control codes"; the self-tests count the blank as printable and CR, LF as not, so
the bytes 0x20..0x7E are taken. -/
def isPrintable (c : Nat) : Bool := decide (32 ≤ c) && decide (c ≤ 126)

/-- C `isspace` in the "C" locale: blank, `\t`, `\n`, `\v`, `\f`, `\r`. -/
def isspace (c : Nat) : Bool := decide (c = 32) || (decide (9 ≤ c) && decide (c ≤ 13))

/-- C `isdigit`. -/
def isdigit (c : Nat) : Bool := decide (48 ≤ c) && decide (c ≤ 57)

/-- ASCII letter test, as spelled out in `isTerminator`. -/
def isAlpha (c : Nat) : Bool :=
  (decide (65 ≤ c) && decide (c ≤ 90)) || (decide (97 ≤ c) && decide (c ≤ 122))

/-- Conversion of an `int` to `uint8_t`. -/
def toUInt8 (x : Int) : Nat := (x % 256).toNat

/-- Reduction of an integer into the range of a 32-bit `int` (two's complement). -/
def toInt32 (x : Int) : Int := (x + 2147483648) % 4294967296 - 2147483648

/-- Value of a run of decimal digit bytes, most significant first. -/
def digitsValue (ds : List Nat) : Nat := ds.foldl (fun a d => a * 10 + (d - 48)) 0

/-- C `strtol(p, &endptr, 10)` on the bytes of a string: skip white space, take an
optional sign, then the longest run of digits.  `none` stands for `endptr == p`
(no conversion); the value saturates at the limits of a 32-bit `long`. -/
def strtol (str : List Nat) : Option Int :=
  let t := str.dropWhile isspace
  let neg : Bool := t.head? == some 45
  let u := if t.head? == some 45 || t.head? == some 43 then t.tail else t
  let ds := u.takeWhile isdigit
  if ds.isEmpty then none
  else if neg then some (max (-(digitsValue ds : Int)) (-2147483648))
  else some (min (digitsValue ds : Int) 2147483647)

/-- C `strncpy(dest, src, n)`, as the `n` bytes it stores: the bytes of `src` up to
its terminating NUL, then NUL padding. -/
def strncpy (src : List Nat) (n : Nat) : List Nat :=
  (List.range n).map (fun i => (src.takeWhile (fun b => b != 0)).getD i 0)

/-- Decimal digits of a natural number as ASCII bytes (`%d` of a non-negative value). -/
def decimal (n : Nat) : List Nat := (Nat.toDigits 10 n).map Char.toNat

/-- The bytes `printf("%d", x)` writes for an `int`. -/
def formatInt (x : Int) : List Nat :=
  if x < 0 then 45 :: decimal (-x).toNat else decimal x.toNat

/-! ## Processor state -/

/-- The `escState` enumeration. -/
inductive EscState where
  | escStateNone
  | escStateEsc
  | escStateEnd
  deriving DecidableEq, Repr

/-- What `pResponse` points at. -/
inductive Response where
  | null
  | literal (str : List Nat)
  | retbuf
  deriving DecidableEq, Repr

/-- Member variables of `class AnsiEscapeProcessor`. -/
structure AnsiEscapeProcessor where
  escState : EscState
  nEscChars : Nat
  col : Int
  savedCol : Int
  isEscSimple : Bool
  isEscApc : Bool
  isEscCsi : Bool
  isCsiQuestion : Bool
  isWrapping : Bool
  isNLCR : Bool
  isNulDelays : Bool
  isSoftReset : Bool
  isHardReset : Bool
  outbuf : Nat → Nat
  pBuf : Nat
  pResponse : Response
  retbuf : List Nat

/-- Store one byte in byte memory. -/
def poke (m : Nat → Nat) (i v : Nat) : Nat → Nat := fun j => if j = i then v else m j

/-- The `len` bytes of memory starting at index `p`. -/
def window (m : Nat → Nat) (p len : Nat) : List Nat := (List.range len).map (fun i => m (p + i))

namespace AnsiEscapeProcessor

/-- `void init()`: `savedCol`, `outbuf`, `retbuf` and `pResponse` are not assigned. -/
def init (s : AnsiEscapeProcessor) : AnsiEscapeProcessor :=
  { s with
    escState := .escStateNone
    nEscChars := 0
    col := 0
    isEscSimple := false
    isEscApc := false
    isEscCsi := false
    isCsiQuestion := false
    isWrapping := false
    isNLCR := true
    isNulDelays := true
    isSoftReset := false
    isHardReset := false
    pBuf := 1 }

/-- `int column()` -/
def column (s : AnsiEscapeProcessor) : Int := s.col

/-- The length prefix of the buffer `update` returns (`outbuf[0]`). -/
def outLen (s : AnsiEscapeProcessor) : Nat := s.outbuf 0

/-- The bytes after the length prefix of the buffer `update` returns: what the
caller sends to the teletype. -/
def output (s : AnsiEscapeProcessor) : List Nat := window s.outbuf 1 (s.outbuf 0)

/-- `bool isTerminator(uint8_t c)` -/
def isTerminator (s : AnsiEscapeProcessor) (c : Nat) : Bool :=
  if s.isEscSimple then isAlpha c || isdigit c
  else if s.isEscApc then decide (c = 156)
  else isAlpha c

/-- `void writeOutput(const char *out, uint8_t n)` -/
def writeOutput (s : AnsiEscapeProcessor) (out : List Nat) (n : Nat) : AnsiEscapeProcessor :=
  { s with
    pBuf := 1
    outbuf := fun i =>
      if i = 0 then n else if i ≤ n then (strncpy out n).getD (i - 1) 0 else s.outbuf i }

/-- `void updateFromChar(uint8_t c)` -/
def updateFromChar (s : AnsiEscapeProcessor) (c : Nat) : AnsiEscapeProcessor :=
  if c = CR then { s with col := 0 }
  else if isPrintable c then
    if s.col < MAX_COLUMNS then { s with col := s.col + 1 } else s
  else s

/-- `void updateFromOutput()`: the loop runs over `outbuf[1..len]`.  (Its counter
is a `uint8_t`; every length the processor writes is below 255.) -/
def updateFromOutput (s : AnsiEscapeProcessor) : AnsiEscapeProcessor :=
  (output s).foldl updateFromChar s

/-- `int getN(int defaultN)`.  `strtol` reads the string at `outbuf + p`; `update`
has stored a NUL at `pBuf + 1`, so the string lies within `outbuf[p .. pBuf+1]`. -/
def getN (s : AnsiEscapeProcessor) (defaultN : Int) : Int :=
  let p := if s.isCsiQuestion then 4 else if s.isEscCsi then 3 else 2
  match strtol (window s.outbuf p (s.pBuf + 2 - p)) with
  | none => defaultN
  | some n => n

/-- One pass of the `switch` in `readAPC`. -/
def apcCommand (h : Header) (s : AnsiEscapeProcessor) (b : Nat) : AnsiEscapeProcessor :=
  if b = h.APC_RX_NLCR_OFF then { s with isNLCR := false }
  else if b = h.APC_RX_NLCR_ON then { s with isNLCR := true }
  else if b = h.APC_RX_DELAYS_OFF then { s with isNulDelays := false }
  else if b = h.APC_RX_DELAYS_ON then { s with isNulDelays := true }
  else s

/-- The `while(*p != 0x9C && n < nEscChars)` loop of `readAPC`, with `k` the
number of rounds `n < nEscChars` still allows. -/
def readAPCLoop (h : Header) : Nat → Nat → AnsiEscapeProcessor → AnsiEscapeProcessor
  | 0, _, s => s
  | k + 1, p, s =>
    if s.outbuf p = 156 then s else readAPCLoop h k (p + 1) (apcCommand h s (s.outbuf p))

/-- `void readAPC()` -/
def readAPC (h : Header) (s : AnsiEscapeProcessor) : AnsiEscapeProcessor :=
  readAPCLoop h s.nEscChars 3 s

/-- `void moveToColumn(int n)` -/
def moveToColumn (s : AnsiEscapeProcessor) (n : Int) : AnsiEscapeProcessor :=
  let n := if n < 0 then 0 else n
  let n := if n > MAX_COLUMNS then MAX_COLUMNS else n
  if n = s.col then s
  else if n > s.col then writeOutput s SPACES (toUInt8 (n - s.col))
  else writeOutput s CR_SPACES (toUInt8 (n + 1))

/-- `void setMode(int mode)` -/
def setMode (s : AnsiEscapeProcessor) (mode : Int) : AnsiEscapeProcessor :=
  if mode = 7 then { s with isWrapping := true } else s

/-- `void resetMode(int mode)` -/
def resetMode (s : AnsiEscapeProcessor) (mode : Int) : AnsiEscapeProcessor :=
  if mode = 7 then { s with isWrapping := false } else s

/-- `void resetTerminal()` -/
def resetTerminal (s : AnsiEscapeProcessor) : AnsiEscapeProcessor :=
  writeOutput { init s with isSoftReset := true } [13, 10] 2

/-- `uint8_t *getResponse()`: the string the returned pointer refers to. -/
def getResponse (s : AnsiEscapeProcessor) : Option (List Nat) :=
  match s.pResponse with
  | .null => none
  | .literal str => some str
  | .retbuf => some s.retbuf

/-- `void writeResponse(const char *out)` -/
def writeResponse (s : AnsiEscapeProcessor) (out : Response) : AnsiEscapeProcessor :=
  { s with pResponse := out }

/-- `void sendDA(int n)` -/
def sendDA (h : Header) (s : AnsiEscapeProcessor) (n : Int) : AnsiEscapeProcessor :=
  if n = 0 then writeResponse s (.literal h.IDENT_SEQUENCE) else s

/-- `void sendDSR(int n)`: case 6 formats `"\033[0;%dR"` into the 32-byte `retbuf`
and publishes it when the text was not truncated. -/
def sendDSR (s : AnsiEscapeProcessor) (n : Int) : AnsiEscapeProcessor :=
  if n = 5 then writeResponse s (.literal [27, 91, 48, 110])
  else if n = 15 then writeResponse s (.literal [27, 91, 63, 49, 51, 110])
  else if n = 6 then
    let text := [27, 91, 48, 59] ++ formatInt s.col ++ [82]
    let s1 := { s with retbuf := text.take 31 }
    if text.length < 32 then writeResponse s1 .retbuf else s1
  else s

/-- The `switch(*pBuf)` of `processSequence` for a simple escape (`isEscSimple`);
`last` is `*pBuf`, the byte received last. -/
def simpleSwitch (s : AnsiEscapeProcessor) (last : Nat) : AnsiEscapeProcessor :=
  if last = 66 then writeOutput s [10] 1                              -- 'B'
  else if last = 67 then moveToColumn s (toInt32 (column s + 1))      -- 'C'
  else if last = 68 then moveToColumn s (toInt32 (column s - 1))      -- 'D'
  else if last = 55 then { s with savedCol := column s }              -- '7'
  else if last = 56 then moveToColumn s s.savedCol                    -- '8'
  else s

/-- The `switch(*pBuf)` of `processSequence` for `ESC [` without `?`. -/
def csiSwitch (h : Header) (s : AnsiEscapeProcessor) (last : Nat) : AnsiEscapeProcessor :=
  if last = 66 then s                                                 -- 'B'
  else if last = 67 then moveToColumn s (toInt32 (column s + getN s 1)) -- 'C'
  else if last = 68 then moveToColumn s (toInt32 (column s - getN s 1)) -- 'D'
  else if last = 71 then moveToColumn s (getN s 0)                    -- 'G'
  else if last = 73 then s                                            -- 'I'
  else if last = 90 then s                                            -- 'Z'
  else if last = 99 then sendDA h s (getN s 0)                        -- 'c'
  else if last = 110 then sendDSR s (getN s 0)                        -- 'n'
  else s

/-- The `switch(*pBuf)` of `processSequence` for `ESC [ ?`. -/
def csiQuestionSwitch (s : AnsiEscapeProcessor) (last : Nat) : AnsiEscapeProcessor :=
  if last = 104 then setMode s (getN s 0)                             -- 'h'
  else if last = 108 then resetMode s (getN s 0)                      -- 'l'
  else if last = 110 then sendDSR s (getN s 0)                        -- 'n'
  else if last = 112 then resetTerminal s                             -- 'p'
  else s

/-- `void processSequence()`: `*pBuf` is the byte received last. -/
def processSequence (h : Header) (s0 : AnsiEscapeProcessor) : AnsiEscapeProcessor :=
  let s := writeResponse s0 .null
  if s.isEscSimple then simpleSwitch s (s.outbuf s.pBuf)
  else if s.isEscApc then readAPC h s
  else if s.isEscCsi then
    if !s.isCsiQuestion then csiSwitch h s (s.outbuf s.pBuf)
    else csiQuestionSwitch s (s.outbuf s.pBuf)
  else s

/-- The three classification statements that close the `escStateEsc` case of
`update`: `if(nEscChars==1 && c=='_') isEscApc = true;`, the same for `'['` and
`isEscCsi`, then `if(isEscCsi && nEscChars==2 && c=='?') isCsiQuestion = true;`.
Each `if(cond) flag = true;` is written `flag := flag || cond`.  `s4` is the state
after the terminator check and a possible `processSequence`. -/
def classify (s4 : AnsiEscapeProcessor) (c : Nat) : AnsiEscapeProcessor :=
  let csi : Bool := s4.isEscCsi || (decide (s4.nEscChars = 1) && decide (c = 91))
  { s4 with
    isEscApc := s4.isEscApc || (decide (s4.nEscChars = 1) && decide (c = 95))
    isEscCsi := csi
    isCsiQuestion := s4.isCsiQuestion || (csi && decide (s4.nEscChars = 2) && decide (c = 63)) }

/-- The `switch(escState)` of `update`, after the byte has been stored at `*pBuf`. -/
def updateSwitch (h : Header) (s : AnsiEscapeProcessor) (c : Nat) : AnsiEscapeProcessor :=
  match s.escState with
  | .escStateNone =>
    let s1 := { s with outbuf := poke s.outbuf 0 1 }
    if c = ESC then
      { s1 with
        escState := .escStateEsc
        nEscChars := 0
        isEscSimple := false
        isEscApc := false
        isEscCsi := false
        isCsiQuestion := false
        outbuf := poke s1.outbuf 0 0 }
    else s1
  | .escStateEsc =>
    let s1 := { s with nEscChars := s.nEscChars + 1 }
    let s2 := { s1 with isEscSimple := decide (s1.nEscChars = 1) }
    let s3 := { s2 with outbuf := poke s2.outbuf 0 0 }
    let s4 :=
      if isTerminator s3 c || decide (s3.nEscChars > h.MAXESCLEN) then
        processSequence h { s3 with escState := .escStateNone }
      else s3
    classify s4 c
  | .escStateEnd => s

/-- The block of `update` after the `switch`: back outside a sequence the buffer
pointer is rewound and the soft wrap is applied; inside one the pointer advances. -/
def updateWrap (s : AnsiEscapeProcessor) (c : Nat) : AnsiEscapeProcessor :=
  if s.escState = .escStateNone then
    let s1 := { s with pBuf := 1 }
    if s1.isWrapping then
      if s1.col = MAX_COLUMNS then writeOutput s1 [13, 10, c] 3 else s1
    else s1
  else { s with pBuf := s.pBuf + 1 }

/-- `uint8_t *update(uint8_t c)`: the returned pointer is `outbuf` of the new state. -/
def update (h : Header) (s : AnsiEscapeProcessor) (c : Nat) : AnsiEscapeProcessor :=
  let s1 := { s with outbuf := poke (poke s.outbuf s.pBuf c) (s.pBuf + 1) 0 }
  updateFromOutput (updateWrap (updateSwitch h s1 c) c)

/-- The constructor `AnsiEscapeProcessor()`: `init` run on the object's storage. -/
def construct (mem : AnsiEscapeProcessor) : AnsiEscapeProcessor := init mem

/-- Feed a sequence of bytes to `update`, one call per byte. -/
def feed (h : Header) (s : AnsiEscapeProcessor) (cs : List Nat) : AnsiEscapeProcessor :=
  cs.foldl (update h) s

/-- Everything the teletype was sent while `cs` was fed: the output buffers of the
successive `update` calls, concatenated. -/
def sent (h : Header) : AnsiEscapeProcessor → List Nat → List Nat
  | _, [] => []
  | s, c :: cs => output (update h s c) ++ sent h (update h s c) cs

/-- States of a processor in use: constructed, then driven by `update` with bytes. -/
inductive Reachable (h : Header) : AnsiEscapeProcessor → Prop where
  | construct (mem : AnsiEscapeProcessor) : Reachable h (construct mem)
  | update (s : AnsiEscapeProcessor) (c : Nat) :
      Reachable h s → c < 256 → Reachable h (update h s c)

end AnsiEscapeProcessor

/-! ## Specification-side and bookkeeping definitions -/

/-- Whether a number starts the text, the way `strtol` looks for one: after the
leading white space and one optional sign comes a decimal digit. -/
def numberAhead (str : List Nat) : Bool :=
  match str.dropWhile isspace with
  | [] => false
  | x :: rest =>
    if x = 45 ∨ x = 43 then
      (match rest with
       | [] => false
       | y :: _ => isdigit y)
    else isdigit x

/-- The column rule in the words of the specification: CR sets 0; a printable byte
increments while below 71; anything else leaves the column unchanged. -/
def replayChar (col : Int) (c : Nat) : Int :=
  if c = 13 then 0 else if isPrintable c = true ∧ col < 71 then col + 1 else col

/-- Replay a run of bytes sent to the teletype from a starting column. -/
def replay (col : Int) (bytes : List Nat) : Int := bytes.foldl replayChar col

/-- Clamp of a column target into `[0, 71]`. -/
def clampColumn (n : Int) : Int := min (max n 0) 71

/-- Byte memory after the bytes `bs` have been stored from index 1 on, each `update`
writing a NUL behind its byte, with the length prefix at 0. -/
def storedMem (m : Nat → Nat) (bs : List Nat) : Nat → Nat := fun i =>
  if i = 0 then 0
  else if i ≤ bs.length then bs.getD (i - 1) 0
  else if i = bs.length + 1 then 0
  else m i

/-- The terminator test of `isTerminator` for a byte arriving after the escape bytes
`bs` (the bytes accumulated since ESC). -/
def terminates (bs : List Nat) (c : Nat) : Bool :=
  if bs.isEmpty then isAlpha c || isdigit c
  else if bs.head? = some 95 then decide (c = 156)
  else isAlpha c

/-- None of the bytes `bs`, arriving one after another behind the escape bytes
`pre`, is a terminator. -/
def accumulatesFrom (pre : List Nat) : List Nat → Bool
  | [] => true
  | b :: rest => !terminates pre b && accumulatesFrom (pre ++ [b]) rest

/-- The column after `n` printable bytes under auto-wrap (lines of 71 columns). -/
def wrapColumn (n : Nat) : Int := if n = 0 then 0 else ((n - 1) % 71 + 1 : Nat)

namespace AnsiEscapeProcessor

/-- The state in which an idle processor `s` finds itself after ESC and the escape
bytes `bs`, none of which ended the sequence. -/
def accumState (s : AnsiEscapeProcessor) (bs : List Nat) : AnsiEscapeProcessor :=
  { s with
    escState := .escStateEsc
    nEscChars := bs.length
    isEscSimple := decide (bs.length = 1)
    isEscApc := decide (bs.head? = some 95)
    isEscCsi := decide (bs.head? = some 91)
    isCsiQuestion := decide (bs.head? = some 91) && decide (bs.tail.head? = some 63)
    pBuf := bs.length + 2
    outbuf := storedMem s.outbuf (27 :: bs) }

/-- The state inside the `escStateEsc` case of `update` once byte `c` has been
stored and counted after ESC and the escape bytes `bs`, before the terminator test. -/
def openState (s : AnsiEscapeProcessor) (bs : List Nat) (c : Nat) : AnsiEscapeProcessor :=
  { s with
    escState := .escStateEsc
    nEscChars := bs.length + 1
    isEscSimple := decide (bs.length + 1 = 1)
    isEscApc := decide (bs.head? = some 95)
    isEscCsi := decide (bs.head? = some 91)
    isCsiQuestion := decide (bs.head? = some 91) && decide (bs.tail.head? = some 63)
    pBuf := bs.length + 2
    outbuf := storedMem s.outbuf (27 :: (bs ++ [c])) }

/-- The state handed to `processSequence` when byte `c` ends the sequence that
began with ESC and the bytes `bs`. -/
def closeState (s : AnsiEscapeProcessor) (bs : List Nat) (c : Nat) : AnsiEscapeProcessor :=
  { openState s bs c with escState := .escStateNone }

end AnsiEscapeProcessor

namespace AnsiEscapeProcessor

/-- State `t` is idle with the buffer pointer rewound, and has the saved column and
the wrap mode of `s`. -/
structure IdleFrame (s t : AnsiEscapeProcessor) : Prop where
  escState : t.escState = .escStateNone
  pBuf : t.pBuf = 1
  savedCol : t.savedCol = s.savedCol
  isWrapping : t.isWrapping = s.isWrapping

end AnsiEscapeProcessor

/-- A cursor move of the round-trip property: `ESC [ <n> C`, `ESC [ <n> D` or
`ESC [ <n> G`. -/
inductive Move where
  | forward (n : Nat)
  | backward (n : Nat)
  | absolute (n : Nat)
  deriving DecidableEq, Repr

/-- The parameter of a move. -/
def Move.param : Move → Nat
  | .forward n => n
  | .backward n => n
  | .absolute n => n

/-- The bytes of a move, its parameter written in decimal. -/
def Move.bytes : Move → List Nat
  | .forward n => [27, 91] ++ decimal n ++ [67]
  | .backward n => [27, 91] ++ decimal n ++ [68]
  | .absolute n => [27, 91] ++ decimal n ++ [71]

/-- The column a move implies, in the words of the specification: `c + N`, `c - N`
or `N`, clamped to `[0, 71]`. -/
def Move.apply (c : Int) : Move → Int
  | .forward n => clampColumn (c + n)
  | .backward n => clampColumn (c - n)
  | .absolute n => clampColumn n

/-- The bytes of a list of moves, one after the other. -/
def movesBytes : List Move → List Nat
  | [] => []
  | m :: ms => m.bytes ++ movesBytes ms

namespace AnsiEscapeProcessor

/-- State `t` has the phase, byte count, column, output buffer and buffer pointer
of `s`: whatever turned `s` into `t` sent nothing and moved nothing. -/
structure Quiet (s t : AnsiEscapeProcessor) : Prop where
  escState : t.escState = s.escState
  nEscChars : t.nEscChars = s.nEscChars
  col : t.col = s.col
  outbuf : t.outbuf = s.outbuf
  pBuf : t.pBuf = s.pBuf

end AnsiEscapeProcessor

namespace AnsiEscapeProcessor

/-- The first two statements of `update`, `*pBuf = c; *(pBuf+1) = 0;`: the state in
which the byte just received has been stored behind the bytes accumulated so far.
`getN` on this state reads the parameter of the sequence that `c` ends. -/
def storeByte (s : AnsiEscapeProcessor) (c : Nat) : AnsiEscapeProcessor :=
  { s with outbuf := poke (poke s.outbuf s.pBuf c) (s.pBuf + 1) 0 }

end AnsiEscapeProcessor

/-- A header instance for concrete runs: cap 32, the identification string the
self-tests expect, and four distinct command codes. -/
def sampleHeader : Header :=
  { MAXESCLEN := 32
    APC_RX_NLCR_OFF := 110
    APC_RX_NLCR_ON := 78
    APC_RX_DELAYS_OFF := 100
    APC_RX_DELAYS_ON := 68
    IDENT_SEQUENCE := [27, 91, 63, 49, 59, 48, 99] }

/-- Storage contents before construction, for concrete runs. -/
def blankMemory : AnsiEscapeProcessor :=
  { escState := .escStateNone
    nEscChars := 0
    col := 0
    savedCol := 0
    isEscSimple := false
    isEscApc := false
    isEscCsi := false
    isCsiQuestion := false
    isWrapping := false
    isNLCR := false
    isNulDelays := false
    isSoftReset := false
    isHardReset := false
    outbuf := fun _ => 0
    pBuf := 0
    pResponse := .null
    retbuf := [] }

end ASR33

/-! ## Basic facts -/

namespace ASR33

/-! ### Byte memory -/

theorem storedMem_zero (m : Nat → Nat) (bs : List Nat) : storedMem m bs 0 = 0 := by
  simp [storedMem]

theorem poke_storedMem_zero (m : Nat → Nat) (bs : List Nat) :
    poke (storedMem m bs) 0 0 = storedMem m bs := by
  funext i
  by_cases h0 : i = 0 <;> simp [poke, storedMem, h0]

theorem storedMem_snoc (m : Nat → Nat) (bs : List Nat) (c : Nat) :
    poke (poke (storedMem m bs) (bs.length + 1) c) (bs.length + 2) 0 = storedMem m (bs ++ [c]) := by
  funext i
  simp only [poke, storedMem, List.length_append, List.length_singleton]
  by_cases h0 : i = 0
  · subst h0; simp
  · by_cases h1 : i ≤ bs.length
    · have h2 : i - 1 < bs.length := by omega
      have h3 : ¬ i = bs.length + 2 := by omega
      have h4 : ¬ i = bs.length + 1 := by omega
      have h5 : i ≤ bs.length + 1 := by omega
      simp [h0, h1, h3, h4, h5, List.getD_eq_getElem?_getD, List.getElem?_append_left h2]
    · by_cases h2 : i = bs.length + 1
      · subst h2
        simp [List.getD_eq_getElem?_getD]
      · by_cases h3 : i = bs.length + 2
        · subst h3; simp
        · have h5 : ¬ i ≤ bs.length + 1 := by omega
          have h6 : ¬ i = bs.length + 1 + 1 := by omega
          simp [h0, h1, h2, h3, h5, h6]

theorem storedMem_first (m : Nat → Nat) (c : Nat) :
    poke (poke (poke (poke m 1 c) 2 0) 0 1) 0 0 = storedMem m [c] := by
  funext i
  simp only [poke, storedMem, List.length_singleton]
  by_cases h0 : i = 0
  · subst h0; simp
  · by_cases h1 : i = 1
    · subst h1; simp
    · by_cases h2 : i = 2
      · subst h2; simp
      · have : ¬ i ≤ 1 := by omega
        simp [h0, h1, h2, this]

theorem storedMem_last (m : Nat → Nat) (bs : List Nat) (c : Nat) :
    storedMem m (27 :: (bs ++ [c])) (bs.length + 2) = c := by
  simp [storedMem, List.getD_eq_getElem?_getD]

theorem window_storedMem (m : Nat → Nat) (bs : List Nat) (k : Nat) (hk : k ≤ bs.length) :
    window (storedMem m bs) (k + 1) (bs.length + 1 - k) = bs.drop k ++ [0] := by
  apply List.ext_getElem
  · simp [window]; omega
  · intro i h1 h2
    simp only [window, List.length_map, List.length_range] at h1
    simp only [window, List.getElem_map, List.getElem_range, storedMem]
    have h0 : ¬ (k + 1 + i = 0) := by omega
    by_cases hi : k + i < bs.length
    · have h3 : k + 1 + i ≤ bs.length := by omega
      have h4 : i < (bs.drop k).length := by simp; omega
      have h5 : k + 1 + i - 1 = k + i := by omega
      simp [h0, h3, List.getElem_append_left h4, h5, List.getD_eq_getElem?_getD, hi]
    · have h3 : ¬ (k + 1 + i ≤ bs.length) := by omega
      have h4 : k + 1 + i = bs.length + 1 := by omega
      have h5 : (bs.drop k).length ≤ i := by simp; omega
      have h6 : i - (bs.length - k) = 0 := by omega
      simp [h0, h3, h4, List.getElem_append_right h5, h6]

theorem toUInt8_of_range (x : Int) (h0 : 0 ≤ x) (h1 : x < 256) : toUInt8 x = x.toNat := by
  unfold toUInt8
  rw [Int.emod_eq_of_lt h0 h1]

theorem strncpy_length (src : List Nat) (n : Nat) : (strncpy src n).length = n := by
  simp [strncpy]

theorem map_getD_replicate (m k v : Nat) (hk : k ≤ m) :
    (List.range k).map (fun i => (List.replicate m v).getD i 0) = List.replicate k v := by
  apply List.ext_getElem
  · simp
  · intro i h1 h2
    simp only [List.length_map, List.length_range] at h1
    have hi : i < m := by omega
    simp [List.getD_eq_getElem?_getD, List.getElem?_replicate, hi]

theorem map_getD_cons_replicate (m k u v : Nat) (hk : k ≤ m) :
    (List.range (k + 1)).map (fun i => (u :: List.replicate m v).getD i 0)
      = u :: List.replicate k v := by
  apply List.ext_getElem
  · simp
  · intro i h1 h2
    simp only [List.length_map, List.length_range] at h1
    rcases i with _ | j
    · simp
    · have hj : j < m := by omega
      simp [List.getD_eq_getElem?_getD, List.getElem?_replicate, hj]

theorem strncpy_SPACES (k : Nat) (hk : k ≤ 75) : strncpy SPACES k = List.replicate k 32 := by
  have htw : SPACES.takeWhile (fun b => b != 0) = List.replicate 75 32 := by decide
  unfold strncpy
  rw [htw]
  exact map_getD_replicate 75 k 32 hk

theorem strncpy_CR_SPACES (k : Nat) (hk : k ≤ 73) :
    strncpy CR_SPACES (k + 1) = 13 :: List.replicate k 32 := by
  have htw : CR_SPACES.takeWhile (fun b => b != 0) = 13 :: List.replicate 73 32 := by decide
  unfold strncpy
  rw [htw]
  exact map_getD_cons_replicate 73 k 13 32 hk

/-! ### Number parsing and formatting -/

theorem isdigit_not_space (d : Nat) (hd : isdigit d = true) :
    isspace d = false ∧ d ≠ 45 ∧ d ≠ 43 := by
  simp only [isdigit, Bool.and_eq_true, decide_eq_true_eq] at hd
  refine ⟨?_, by omega, by omega⟩
  simp only [isspace, Bool.or_eq_false_iff, decide_eq_false_iff_not, Bool.and_eq_false_imp,
    decide_eq_true_eq]
  omega

theorem isAlpha_not_digit (c : Nat) (hc : isAlpha c = true) :
    isdigit c = false ∧ isspace c = false ∧ c ≠ 45 ∧ c ≠ 43 := by
  simp only [isAlpha, Bool.or_eq_true, Bool.and_eq_true, decide_eq_true_eq] at hc
  refine ⟨?_, ?_, by omega, by omega⟩
  · simp only [isdigit, Bool.and_eq_false_imp, decide_eq_true_eq, decide_eq_false_iff_not]
    omega
  · simp only [isspace, Bool.or_eq_false_iff, decide_eq_false_iff_not, Bool.and_eq_false_imp,
      decide_eq_true_eq]
    omega

/-- `strtol` on a string that starts with a letter converts nothing. -/
theorem strtol_alpha (c : Nat) (rest : List Nat) (hc : isAlpha c = true) :
    strtol (c :: rest) = none := by
  obtain ⟨h1, h2, h3, h4⟩ := isAlpha_not_digit c hc
  simp [strtol, List.dropWhile, List.takeWhile, h1, h2, h3, h4]

/-- `strtol` on a non-empty run of digits followed by a letter yields its value. -/
theorem strtol_digits (ds : List Nat) (c : Nat) (rest : List Nat)
    (hds : ∀ d ∈ ds, isdigit d = true) (hne : ds ≠ []) (hc : isAlpha c = true) :
    strtol (ds ++ c :: rest) = some (min (digitsValue ds : Int) 2147483647) := by
  obtain ⟨h1, -, -, -⟩ := isAlpha_not_digit c hc
  rcases ds with _ | ⟨d, ds⟩
  · exact absurd rfl hne
  · obtain ⟨g1, g2, g3⟩ := isdigit_not_space d (hds d (List.mem_cons_self _ _))
    have hd := hds d (List.mem_cons_self _ _)
    have htw : List.takeWhile isdigit (d :: (ds ++ c :: rest)) = d :: ds := by
      have : List.takeWhile isdigit ((d :: ds) ++ c :: rest)
          = (d :: ds) ++ List.takeWhile isdigit (c :: rest) :=
        List.takeWhile_append_of_pos hds
      simpa [List.takeWhile, h1] using this
    unfold strtol
    simp only [List.cons_append, List.dropWhile, g1]
    simp [g2, g3, htw]

theorem digitsValue_append (xs : List Nat) (d : Nat) :
    digitsValue (xs ++ [d]) = digitsValue xs * 10 + (d - 48) := by
  simp [digitsValue, List.foldl_append]

theorem digitChar_toNat (m : Nat) (hm : m < 10) : (Nat.digitChar m).toNat = 48 + m := by
  interval_cases m <;> rfl

theorem isdigit_digitChar (m : Nat) (hm : m < 10) : isdigit (Nat.digitChar m).toNat = true := by
  rw [digitChar_toNat m hm]
  simp [isdigit]
  omega

/-- The digit loop behind `Nat.toDigits 10`, given enough fuel: it puts in front of
the accumulator a non-empty run of digit bytes whose value is `n`. -/
theorem toDigitsCore_spec (fuel n : Nat) (acc : List Char) (hf : n < fuel) :
    ∃ xs : List Char, Nat.toDigitsCore 10 fuel n acc = xs ++ acc ∧ xs ≠ [] ∧
      (∀ x ∈ xs, isdigit x.toNat = true) ∧ digitsValue (xs.map Char.toNat) = n ∧
      (∀ k, 1 ≤ k → n < 10 ^ k → xs.length ≤ k) := by
  induction fuel generalizing n acc with
  | zero => omega
  | succ fuel ih =>
    have hmod : n % 10 < 10 := Nat.mod_lt _ (by decide)
    unfold Nat.toDigitsCore
    simp only []
    by_cases hq : n / 10 = 0
    · simp only [hq, if_true]
      refine ⟨[Nat.digitChar (n % 10)], rfl, by simp, ?_, ?_, ?_⟩
      · intro x hx
        simp only [List.mem_singleton] at hx
        rw [hx]; exact isdigit_digitChar _ hmod
      · simp only [List.map_cons, List.map_nil, digitsValue, List.foldl_cons, List.foldl_nil]
        rw [digitChar_toNat _ hmod]
        omega
      · intro k hk _
        simpa using hk
    · simp only [hq, if_false]
      have hlt : n / 10 < fuel := by omega
      obtain ⟨xs, h1, h2, h3, h4, h5⟩ := ih (n / 10) (Nat.digitChar (n % 10) :: acc) hlt
      refine ⟨xs ++ [Nat.digitChar (n % 10)], by rw [h1]; simp, by simp, ?_, ?_, ?_⟩
      · intro x hx
        rcases List.mem_append.1 hx with hx | hx
        · exact h3 x hx
        · simp only [List.mem_singleton] at hx
          rw [hx]; exact isdigit_digitChar _ hmod
      · rw [List.map_append, List.map_cons, List.map_nil, digitsValue_append, h4,
          digitChar_toNat _ hmod]
        omega
      · intro k hk hn
        rcases k with _ | k
        · omega
        · have hk1 : 1 ≤ k := by
            rcases k with _ | k
            · simp at hn; omega
            · omega
          have : n / 10 < 10 ^ k := by
            rw [pow_succ] at hn
            omega
          have := h5 k hk1 this
          simp only [List.length_append, List.length_singleton]
          omega

/-- The decimal text of `n`: digits only, not empty, of value `n`, and of at most
`k` digits when `n < 10 ^ k`. -/
theorem decimal_spec (n : Nat) :
    (∀ d ∈ decimal n, isdigit d = true) ∧ decimal n ≠ [] ∧ digitsValue (decimal n) = n ∧
      (∀ k, 1 ≤ k → n < 10 ^ k → (decimal n).length ≤ k) := by
  obtain ⟨xs, h1, h2, h3, h4, h5⟩ := toDigitsCore_spec (n + 1) n [] (by omega)
  have hd : decimal n = xs.map Char.toNat := by
    unfold decimal Nat.toDigits
    rw [h1, List.append_nil]
  rw [hd]
  refine ⟨?_, by simpa using h2, h4, by simpa using h5⟩
  intro d hd
  obtain ⟨x, hx, rfl⟩ := List.mem_map.1 hd
  exact h3 x hx

theorem toInt32_of_range (x : Int) (h0 : -2147483648 ≤ x) (h1 : x ≤ 2147483647) :
    toInt32 x = x := by
  unfold toInt32
  omega

namespace AnsiEscapeProcessor

theorem updateFromChar_eq (s : AnsiEscapeProcessor) (c : Nat) :
    updateFromChar s c = { s with col := replayChar s.col c } := by
  unfold updateFromChar replayChar
  by_cases h1 : c = CR
  · have : c = 13 := h1
    simp [this, CR]
  · have : ¬ c = 13 := h1
    by_cases h2 : isPrintable c = true
    · by_cases h3 : s.col < MAX_COLUMNS
      · have h3b : s.col < 71 := h3
        simp [h1, this, h2, h3, h3b]
      · have h3b : ¬ s.col < 71 := h3
        simp [h1, this, h2, h3, h3b]
    · simp [h1, this, h2]

theorem foldl_updateFromChar (l : List Nat) (s : AnsiEscapeProcessor) :
    l.foldl updateFromChar s = { s with col := replay s.col l } := by
  induction l generalizing s with
  | nil => rfl
  | cons c l ih =>
    rw [List.foldl_cons, ih, updateFromChar_eq]
    rfl

theorem updateFromOutput_eq (s : AnsiEscapeProcessor) :
    updateFromOutput s = { s with col := replay s.col (output s) } :=
  foldl_updateFromChar _ _

theorem output_updateFromOutput (s : AnsiEscapeProcessor) :
    output (updateFromOutput s) = output s := by
  rw [updateFromOutput_eq]; rfl

theorem replayChar_range (col : Int) (c : Nat) (h0 : 0 ≤ col) (h1 : col ≤ 71) :
    0 ≤ replayChar col c ∧ replayChar col c ≤ 71 := by
  unfold replayChar
  split_ifs <;> omega

theorem replay_range (l : List Nat) (col : Int) (h0 : 0 ≤ col) (h1 : col ≤ 71) :
    0 ≤ replay col l ∧ replay col l ≤ 71 := by
  induction l generalizing col with
  | nil => exact ⟨h0, h1⟩
  | cons c l ih =>
    have hc := replayChar_range col c h0 h1
    exact ih (replayChar col c) hc.1 hc.2

theorem replay_append (col : Int) (l1 l2 : List Nat) :
    replay col (l1 ++ l2) = replay (replay col l1) l2 := by
  simp [replay, List.foldl_append]

/-! ### Fields the dispatcher's helpers leave alone -/

@[simp] theorem writeOutput_col (s : AnsiEscapeProcessor) (out : List Nat) (n : Nat) :
    (writeOutput s out n).col = s.col := rfl

@[simp] theorem writeResponse_col (s : AnsiEscapeProcessor) (r : Response) :
    (writeResponse s r).col = s.col := rfl

@[simp] theorem moveToColumn_col (s : AnsiEscapeProcessor) (n : Int) :
    (moveToColumn s n).col = s.col := by
  unfold moveToColumn
  simp only []
  split_ifs <;> rfl

@[simp] theorem apcCommand_col (h : Header) (s : AnsiEscapeProcessor) (b : Nat) :
    (apcCommand h s b).col = s.col := by
  unfold apcCommand
  split_ifs <;> rfl

@[simp] theorem readAPCLoop_col (h : Header) (k p : Nat) (s : AnsiEscapeProcessor) :
    (readAPCLoop h k p s).col = s.col := by
  induction k generalizing p s with
  | zero => rfl
  | succ k ih =>
    unfold readAPCLoop
    split_ifs
    · rfl
    · rw [ih]; simp

@[simp] theorem readAPC_col (h : Header) (s : AnsiEscapeProcessor) :
    (readAPC h s).col = s.col := readAPCLoop_col h _ _ s

@[simp] theorem sendDA_col (h : Header) (s : AnsiEscapeProcessor) (n : Int) :
    (sendDA h s n).col = s.col := by
  unfold sendDA
  split_ifs <;> rfl

@[simp] theorem sendDSR_col (s : AnsiEscapeProcessor) (n : Int) :
    (sendDSR s n).col = s.col := by
  unfold sendDSR
  simp only []
  split_ifs <;> rfl

@[simp] theorem setMode_col (s : AnsiEscapeProcessor) (n : Int) :
    (setMode s n).col = s.col := by
  unfold setMode
  split_ifs <;> rfl

@[simp] theorem resetMode_col (s : AnsiEscapeProcessor) (n : Int) :
    (resetMode s n).col = s.col := by
  unfold resetMode
  split_ifs <;> rfl

@[simp] theorem simpleSwitch_col (s : AnsiEscapeProcessor) (last : Nat) :
    (simpleSwitch s last).col = s.col := by
  unfold simpleSwitch
  split_ifs <;> simp

@[simp] theorem csiSwitch_col (h : Header) (s : AnsiEscapeProcessor) (last : Nat) :
    (csiSwitch h s last).col = s.col := by
  unfold csiSwitch
  split_ifs <;> simp

theorem csiQuestionSwitch_col (s : AnsiEscapeProcessor) (last : Nat) :
    (csiQuestionSwitch s last).col = s.col ∨
      csiQuestionSwitch s last = resetTerminal s := by
  unfold csiQuestionSwitch
  split_ifs <;> simp

/-- The dispatcher either keeps the column or performs the soft reset. -/
theorem processSequence_col (h : Header) (s : AnsiEscapeProcessor) :
    (processSequence h s).col = s.col ∨
      processSequence h s = resetTerminal (writeResponse s .null) := by
  unfold processSequence
  simp only []
  split_ifs
  · left; simp
  · left; simp
  · left; simp
  · rcases csiQuestionSwitch_col (writeResponse s .null)
      ((writeResponse s .null).outbuf (writeResponse s .null).pBuf) with hq | hq
    · left; rw [hq]; rfl
    · right; exact hq
  · left; rfl

@[simp] theorem classify_col (s : AnsiEscapeProcessor) (c : Nat) :
    (classify s c).col = s.col := rfl

theorem classify_resetTerminal (t : AnsiEscapeProcessor) (c : Nat) :
    classify (resetTerminal t) c = resetTerminal t := by
  simp [classify, resetTerminal, writeOutput, init]

/-- The `switch` of `update` either keeps the column or ends in the soft reset. -/
theorem updateSwitch_col (h : Header) (s : AnsiEscapeProcessor) (c : Nat) :
    (updateSwitch h s c).col = s.col ∨ ∃ t, updateSwitch h s c = resetTerminal t := by
  unfold updateSwitch
  split
  · left
    simp only []
    split_ifs <;> rfl
  · simp only []
    split_ifs with ht
    · rcases processSequence_col h
        { s with nEscChars := s.nEscChars + 1, isEscSimple := decide (s.nEscChars + 1 = 1),
                 outbuf := poke s.outbuf 0 0, escState := .escStateNone } with hp | hp
      · left; rw [classify_col, hp]
      · right; exact ⟨_, by rw [hp, classify_resetTerminal]⟩
    · left; rw [classify_col]
  · left; rfl

@[simp] theorem updateWrap_col (s : AnsiEscapeProcessor) (c : Nat) :
    (updateWrap s c).col = s.col := by
  unfold updateWrap
  simp only []
  split_ifs <;> rfl

theorem output_updateWrap_resetTerminal (t : AnsiEscapeProcessor) (c : Nat) :
    output (updateWrap (resetTerminal t) c) = [13, 10] ∧
      (updateWrap (resetTerminal t) c).col = 0 := by
  constructor <;> rfl

/-- One `update` call moves the column by replaying the output it returns. -/
theorem update_col_replay (h : Header) (s : AnsiEscapeProcessor) (c : Nat) :
    (update h s c).col = replay s.col (output (update h s c)) := by
  unfold update
  simp only []
  rw [output_updateFromOutput, updateFromOutput_eq]
  show replay _ _ = _
  rcases updateSwitch_col h
      { s with outbuf := poke (poke s.outbuf s.pBuf c) (s.pBuf + 1) 0 } c with hc | ⟨t, ht⟩
  · rw [updateWrap_col, hc]
  · rw [ht, (output_updateWrap_resetTerminal t c).1, (output_updateWrap_resetTerminal t c).2]
    rfl

theorem feed_col_replay (h : Header) (cs : List Nat) (s : AnsiEscapeProcessor) :
    (feed h s cs).col = replay s.col (sent h s cs) := by
  induction cs generalizing s with
  | nil => rfl
  | cons c cs ih =>
    show (feed h (update h s c) cs).col = replay s.col (output (update h s c) ++ _)
    rw [ih, replay_append, ← update_col_replay]

/-! ### Stepping through an escape sequence -/

theorem updateFromOutput_of_len0 (s : AnsiEscapeProcessor) (h0 : s.outbuf 0 = 0) :
    updateFromOutput s = s := by
  rw [updateFromOutput_eq]
  simp [output, h0, window, replay]

theorem update_eq (h : Header) (s : AnsiEscapeProcessor) (c : Nat) :
    update h s c = updateFromOutput (updateWrap (updateSwitch h
      { s with outbuf := poke (poke s.outbuf s.pBuf c) (s.pBuf + 1) 0 } c) c) := rfl

theorem update_idle_esc (h : Header) (s : AnsiEscapeProcessor)
    (hidle : s.escState = .escStateNone) (hp : s.pBuf = 1) :
    update h s 27 = accumState s [] := by
  have hout : (updateWrap (updateSwitch h { s with outbuf := poke (poke s.outbuf s.pBuf 27) (s.pBuf + 1) 0 } 27) 27)
      = accumState s [] := by
    simp [updateSwitch, updateWrap, hidle, hp, ESC, accumState, storedMem_first]
  rw [update_eq, hout, updateFromOutput_of_len0]
  simp [accumState, storedMem]

theorem isTerminator_eq (s : AnsiEscapeProcessor) (bs : List Nat) (c : Nat)
    (h1 : s.isEscSimple = decide (bs.length + 1 = 1))
    (h2 : s.isEscApc = decide (bs.head? = some 95)) :
    isTerminator s c = terminates bs c := by
  unfold isTerminator terminates
  rw [h1, h2]
  rcases bs with _ | ⟨b, rest⟩
  · simp
  · simp

theorem updateSwitch_accum (h : Header) (s : AnsiEscapeProcessor) (bs : List Nat) (c : Nat) :
    updateSwitch h { accumState s bs with
        outbuf := poke (poke (accumState s bs).outbuf (accumState s bs).pBuf c)
          ((accumState s bs).pBuf + 1) 0 } c
      = classify (if terminates bs c || decide (h.MAXESCLEN < bs.length + 1)
          then processSequence h (closeState s bs c) else openState s bs c) c := by
  have hm : poke (poke (poke (storedMem s.outbuf (27 :: bs)) (bs.length + 2) c)
      (bs.length + 2 + 1) 0) 0 0 = storedMem s.outbuf (27 :: (bs ++ [c])) := by
    have := storedMem_snoc s.outbuf (27 :: bs) c
    simp only [List.length_cons, List.cons_append] at this
    rw [this, poke_storedMem_zero]
  have hT : isTerminator (openState s bs c) c = terminates bs c :=
    isTerminator_eq _ _ _ rfl rfl
  rw [← hT]
  simp only [updateSwitch, accumState, openState, closeState, hm, gt_iff_lt]

theorem classify_openState (s : AnsiEscapeProcessor) (bs : List Nat) (c : Nat) :
    classify (openState s bs c) c = { accumState s (bs ++ [c]) with pBuf := bs.length + 2 } := by
  rcases bs with _ | ⟨b, _ | ⟨b2, rest⟩⟩ <;> simp [classify, openState, accumState]

theorem update_accum_step (h : Header) (s : AnsiEscapeProcessor) (bs : List Nat) (c : Nat)
    (hterm : terminates bs c = false) (hlen : bs.length + 1 ≤ h.MAXESCLEN) :
    update h (accumState s bs) c = accumState s (bs ++ [c]) := by
  have hlen2 : ¬ (h.MAXESCLEN < bs.length + 1) := by omega
  rw [update_eq, updateSwitch_accum, hterm]
  simp only [hlen2, decide_False, Bool.or_self, Bool.false_eq_true, if_false]
  rw [classify_openState, updateFromOutput_of_len0]
  · simp [updateWrap, accumState]
  · simp [updateWrap, accumState, storedMem]

theorem update_accum_final (h : Header) (s : AnsiEscapeProcessor) (bs : List Nat) (c : Nat)
    (hterm : terminates bs c = true ∨ h.MAXESCLEN < bs.length + 1) :
    update h (accumState s bs) c =
      updateFromOutput (updateWrap (classify (processSequence h (closeState s bs c)) c) c) := by
  rw [update_eq, updateSwitch_accum]
  have : (terminates bs c || decide (h.MAXESCLEN < bs.length + 1)) = true := by
    rcases hterm with ht | ht
    · simp [ht]
    · simp [ht]
  rw [this]
  simp

/-! ### Bytes received outside an escape sequence -/

theorem update_idle_byte (h : Header) (s : AnsiEscapeProcessor) (c : Nat)
    (hidle : s.escState = .escStateNone) (hp : s.pBuf = 1) (hc : c ≠ 27) :
    update h s c = updateFromOutput (updateWrap
      { s with outbuf := poke (poke (poke s.outbuf 1 c) 2 0) 0 1 } c) := by
  rw [update_eq]
  simp [updateSwitch, hidle, hp, ESC, hc]

theorem strncpy_wrap (c : Nat) : strncpy [13, 10, c] 3 = [13, 10, c] := by
  by_cases hc : c = 0
  · subst hc; rfl
  · have hb : (c != 0) = true := by simp [hc]
    simp [strncpy, List.range_succ, List.takeWhile, hb]

theorem output_writeOutput_wrap (s : AnsiEscapeProcessor) (c : Nat) :
    output (writeOutput s [13, 10, c] 3) = [13, 10, c] := by
  simp [output, writeOutput, window, List.range_succ, strncpy_wrap]

theorem update_idle_nowrap (h : Header) (s : AnsiEscapeProcessor) (c : Nat)
    (hidle : s.escState = .escStateNone) (hp : s.pBuf = 1) (hc : c ≠ 27)
    (hw : ¬ (s.isWrapping = true ∧ s.col = 71)) :
    update h s c =
      { s with outbuf := poke (poke (poke s.outbuf 1 c) 2 0) 0 1, col := replayChar s.col c } := by
  rw [update_idle_byte h s c hidle hp hc, updateFromOutput_eq]
  have hw2 : updateWrap { s with outbuf := poke (poke (poke s.outbuf 1 c) 2 0) 0 1 } c
      = { s with outbuf := poke (poke (poke s.outbuf 1 c) 2 0) 0 1 } := by
    unfold updateWrap
    by_cases h1 : s.isWrapping = true
    · have h2 : ¬ s.col = MAX_COLUMNS := fun h2 => hw ⟨h1, h2⟩
      simp [hidle, hp, h1, h2]
    · simp [hidle, hp, h1]
  rw [hw2]
  simp [output, window, poke, replay, List.range_succ]

theorem update_idle_wrap (h : Header) (s : AnsiEscapeProcessor) (c : Nat)
    (hidle : s.escState = .escStateNone) (hp : s.pBuf = 1) (hc : c ≠ 27)
    (hw : s.isWrapping = true) (hcol : s.col = 71) :
    update h s c =
      { writeOutput { s with outbuf := poke (poke (poke s.outbuf 1 c) 2 0) 0 1 } [13, 10, c] 3
        with col := replayChar 0 c } := by
  rw [update_idle_byte h s c hidle hp hc, updateFromOutput_eq]
  have hcol2 : s.col = MAX_COLUMNS := hcol
  have hw2 : updateWrap { s with outbuf := poke (poke (poke s.outbuf 1 c) 2 0) 0 1 } c
      = writeOutput { s with outbuf := poke (poke (poke s.outbuf 1 c) 2 0) 0 1 } [13, 10, c] 3 := by
    unfold updateWrap
    simp [hidle, hp, hw, hcol2]
  rw [hw2, output_writeOutput_wrap]
  simp [replay, replayChar, isPrintable]

/-! ### Reachable states -/

theorem update_idle_pBuf (h : Header) (s : AnsiEscapeProcessor) (c : Nat)
    (hidle : (update h s c).escState = .escStateNone) : (update h s c).pBuf = 1 := by
  rw [update_eq, updateFromOutput_eq] at hidle ⊢
  simp only [] at hidle ⊢
  generalize updateSwitch h { s with outbuf := poke (poke s.outbuf s.pBuf c) (s.pBuf + 1) 0 } c
    = x at hidle ⊢
  unfold updateWrap at hidle ⊢
  by_cases hx : x.escState = .escStateNone
  · simp only [hx, if_true]
    split_ifs <;> rfl
  · simp only [hx, if_false] at hidle

theorem reachable_idle_pBuf (h : Header) (s : AnsiEscapeProcessor) (hr : Reachable h s)
    (hidle : s.escState = .escStateNone) : s.pBuf = 1 := by
  cases hr with
  | construct mem => rfl
  | update s0 c _ _ => exact update_idle_pBuf h s0 c hidle

theorem reachable_col_range (h : Header) (s : AnsiEscapeProcessor) (hr : Reachable h s) :
    0 ≤ s.col ∧ s.col ≤ 71 := by
  induction hr with
  | construct mem => exact ⟨le_refl _, show (0 : Int) ≤ 71 by decide⟩
  | update s0 c _ _ ih =>
    rw [update_col_replay]
    exact replay_range _ _ ih.1 ih.2

theorem IdleFrame.refl (s : AnsiEscapeProcessor) (hidle : s.escState = .escStateNone)
    (hp : s.pBuf = 1) : IdleFrame s s := ⟨hidle, hp, rfl, rfl⟩

theorem IdleFrame.trans {s t u : AnsiEscapeProcessor} (h1 : IdleFrame s t) (h2 : IdleFrame t u) :
    IdleFrame s u :=
  ⟨h2.escState, h2.pBuf, h2.savedCol.trans h1.savedCol, h2.isWrapping.trans h1.isWrapping⟩

/-- A byte other than ESC received by an idle processor keeps it idle. -/
theorem update_idle_frame (h : Header) (s : AnsiEscapeProcessor) (c : Nat)
    (hidle : s.escState = .escStateNone) (hp : s.pBuf = 1) (hc : c ≠ 27) :
    IdleFrame s (update h s c) := by
  by_cases hw : s.isWrapping = true ∧ s.col = 71
  · rw [update_idle_wrap h s c hidle hp hc hw.1 hw.2]
    exact ⟨hidle, rfl, rfl, rfl⟩
  · rw [update_idle_nowrap h s c hidle hp hc hw]
    exact ⟨hidle, hp, rfl, rfl⟩

theorem output_update_idle_nowrap (h : Header) (s : AnsiEscapeProcessor) (c : Nat)
    (hidle : s.escState = .escStateNone) (hp : s.pBuf = 1) (hc : c ≠ 27)
    (hw : ¬ (s.isWrapping = true ∧ s.col = 71)) :
    outLen (update h s c) = 1 ∧ output (update h s c) = [c] := by
  rw [update_idle_nowrap h s c hidle hp hc hw]
  simp [outLen, output, window, poke, List.range_succ]

theorem output_update_idle_wrap (h : Header) (s : AnsiEscapeProcessor) (c : Nat)
    (hidle : s.escState = .escStateNone) (hp : s.pBuf = 1) (hc : c ≠ 27)
    (hw : s.isWrapping = true) (hcol : s.col = 71) :
    outLen (update h s c) = 3 ∧ output (update h s c) = [13, 10, c] := by
  rw [update_idle_wrap h s c hidle hp hc hw hcol]
  exact ⟨rfl, output_writeOutput_wrap _ c⟩

/-! ### Runs of plain bytes -/

theorem replay_printable (cs : List Nat) (col : Int) (hprint : ∀ c ∈ cs, 32 ≤ c ∧ c ≤ 126)
    (h1 : col ≤ 71) : replay col cs = min (col + cs.length) 71 := by
  induction cs generalizing col with
  | nil => simp [replay]; omega
  | cons c cs ih =>
    have hc := hprint c (List.mem_cons_self _ _)
    have hcs : ∀ d ∈ cs, 32 ≤ d ∧ d ≤ 126 := fun d hd => hprint d (List.mem_cons_of_mem _ hd)
    have hp : isPrintable c = true := by simp [isPrintable, hc.1, hc.2]
    have h13 : c ≠ 13 := by omega
    show replay (replayChar col c) cs = _
    by_cases hlt : col < 71
    · have : replayChar col c = col + 1 := by simp [replayChar, h13, hp, hlt]
      rw [this, ih _ hcs (by omega)]
      simp only [List.length_cons, Nat.cast_add, Nat.cast_one]
      omega
    · have : replayChar col c = col := by simp [replayChar, h13, hp, hlt]
      rw [this, ih _ hcs h1]
      simp only [List.length_cons, Nat.cast_add, Nat.cast_one]
      omega

/-- With auto-wrap off, bytes other than ESC pass through one for one. -/
theorem feed_plain_nowrap (h : Header) (cs : List Nat) (s : AnsiEscapeProcessor)
    (hidle : s.escState = .escStateNone) (hp : s.pBuf = 1) (hw : s.isWrapping = false)
    (hesc : ∀ c ∈ cs, c ≠ 27) :
    IdleFrame s (feed h s cs) ∧ sent h s cs = cs := by
  induction cs generalizing s with
  | nil => exact ⟨IdleFrame.refl s hidle hp, rfl⟩
  | cons c cs ih =>
    have hc := hesc c (List.mem_cons_self _ _)
    have hcs : ∀ d ∈ cs, d ≠ 27 := fun d hd => hesc d (List.mem_cons_of_mem _ hd)
    have hnw : ¬ (s.isWrapping = true ∧ s.col = 71) := by simp [hw]
    have hf := update_idle_frame h s c hidle hp hc
    have ho := output_update_idle_nowrap h s c hidle hp hc hnw
    have := ih (update h s c) hf.escState hf.pBuf (hf.isWrapping.trans hw) hcs
    refine ⟨hf.trans this.1, ?_⟩
    show output (update h s c) ++ sent h (update h s c) cs = c :: cs
    rw [ho.2, this.2]
    rfl

/-! ### Whole escape sequences -/

theorem feed_append (h : Header) (s : AnsiEscapeProcessor) (as bs : List Nat) :
    feed h s (as ++ bs) = feed h (feed h s as) bs := by
  simp [feed, List.foldl_append]

theorem feed_accum (h : Header) (s : AnsiEscapeProcessor) (bs pre : List Nat)
    (hacc : accumulatesFrom pre bs = true) (hlen : pre.length + bs.length ≤ h.MAXESCLEN) :
    feed h (accumState s pre) bs = accumState s (pre ++ bs) := by
  induction bs generalizing pre with
  | nil => simp [feed]
  | cons b rest ih =>
    simp only [accumulatesFrom, Bool.and_eq_true, Bool.not_eq_true'] at hacc
    simp only [List.length_cons] at hlen
    show feed h (update h (accumState s pre) b) rest = _
    rw [update_accum_step h s pre b hacc.1 (by omega), ih (pre ++ [b]) hacc.2 (by simp; omega)]
    simp

/-- A whole escape sequence fed to an idle processor: ESC, escape bytes `bs` that
do not terminate, then the byte `c` that does. -/
theorem feed_escape (h : Header) (s : AnsiEscapeProcessor) (bs : List Nat) (c : Nat)
    (hidle : s.escState = .escStateNone) (hp : s.pBuf = 1)
    (hacc : accumulatesFrom [] bs = true) (hlen : bs.length ≤ h.MAXESCLEN)
    (hterm : terminates bs c = true ∨ h.MAXESCLEN < bs.length + 1) :
    feed h s (27 :: (bs ++ [c])) =
      updateFromOutput (updateWrap (classify (processSequence h (closeState s bs c)) c) c) := by
  show feed h (update h s 27) (bs ++ [c]) = _
  rw [update_idle_esc h s hidle hp, feed_append, feed_accum h s bs [] hacc (by simpa using hlen)]
  show update h (accumState s ([] ++ bs)) c = _
  rw [List.nil_append, update_accum_final h s bs c hterm]

/-- Bytes that are not letters do not end a CSI sequence. -/
theorem accumulatesFrom_csi (bs pre : List Nat) (hpre : pre.head? = some 91)
    (hbs : ∀ b ∈ bs, isAlpha b = false) : accumulatesFrom pre bs = true := by
  induction bs generalizing pre with
  | nil => rfl
  | cons b rest ih =>
    have hb := hbs b (List.mem_cons_self _ _)
    have hrest : ∀ d ∈ rest, isAlpha d = false := fun d hd => hbs d (List.mem_cons_of_mem _ hd)
    have hne : pre ≠ [] := by intro h0; simp [h0] at hpre
    have hpre2 : (pre ++ [b]).head? = some 91 := by
      rcases pre with _ | ⟨p, ps⟩
      · exact absurd rfl hne
      · simpa using hpre
    have ht : terminates pre b = false := by
      rcases pre with _ | ⟨p, ps⟩
      · exact absurd rfl hne
      · simp at hpre
        simp [terminates, hpre, hb]
    simp [accumulatesFrom, ht, ih (pre ++ [b]) hpre2 hrest]

theorem classify_eq_self (s : AnsiEscapeProcessor) (c : Nat)
    (h1 : c ≠ 95) (h2 : c ≠ 91) (h3 : c ≠ 63) : classify s c = s := by
  simp [classify, h1, h2, h3]

theorem processSequence_simple (h : Header) (s : AnsiEscapeProcessor) (c : Nat) :
    processSequence h (closeState s [] c) =
      simpleSwitch (writeResponse (closeState s [] c) .null) c := by
  simp [processSequence, closeState, openState, writeResponse, storedMem]

theorem processSequence_csi (h : Header) (s : AnsiEscapeProcessor) (ds : List Nat) (c : Nat)
    (hq : ds.head? ≠ some 63) :
    processSequence h (closeState s (91 :: ds) c) =
      csiSwitch h (writeResponse (closeState s (91 :: ds) c) .null) c := by
  have hl := storedMem_last s.outbuf (91 :: ds) c
  simp only [List.length_cons, List.cons_append] at hl
  simp [processSequence, closeState, openState, writeResponse, hq, hl]

theorem processSequence_csiQuestion (h : Header) (s : AnsiEscapeProcessor) (ds : List Nat)
    (c : Nat) :
    processSequence h (closeState s (91 :: 63 :: ds) c) =
      csiQuestionSwitch (writeResponse (closeState s (91 :: 63 :: ds) c) .null) c := by
  have hl := storedMem_last s.outbuf (91 :: 63 :: ds) c
  simp only [List.length_cons, List.cons_append] at hl
  simp [processSequence, closeState, openState, writeResponse, hl]

theorem getN_eq (s : AnsiEscapeProcessor) (d : Int) :
    getN s d = (strtol (window s.outbuf
      (if s.isCsiQuestion = true then 4 else if s.isEscCsi = true then 3 else 2)
      (s.pBuf + 2 - (if s.isCsiQuestion = true then 4 else if s.isEscCsi = true then 3 else 2)))).getD
        d := by
  unfold getN
  simp only []
  split <;> simp [*]

theorem getN_csi (s : AnsiEscapeProcessor) (ds : List Nat) (c : Nat) (d : Int)
    (hq : ds.head? ≠ some 63) :
    getN (writeResponse (closeState s (91 :: ds) c) .null) d =
      (strtol (ds ++ [c, 0])).getD d := by
  have hw : window (storedMem s.outbuf (27 :: 91 :: (ds ++ [c]))) 3 (ds.length + 2)
      = ds ++ [c, 0] := by
    have := window_storedMem s.outbuf (27 :: 91 :: (ds ++ [c])) 2 (by simp)
    have e : (27 :: 91 :: (ds ++ [c])).length + 1 - 2 = ds.length + 2 := by simp
    rw [e] at this
    simpa using this
  rw [getN_eq]
  simp only [writeResponse, closeState, openState, List.head?_cons, List.tail_cons, hq,
    decide_True, decide_False, Bool.and_false, Bool.false_eq_true, if_false, if_true,
    List.length_cons, List.cons_append]
  show (strtol (window (storedMem s.outbuf (27 :: 91 :: (ds ++ [c]))) 3 (ds.length + 2))).getD d = _
  rw [hw]

theorem getN_csiQuestion (s : AnsiEscapeProcessor) (ds : List Nat) (c : Nat) (d : Int) :
    getN (writeResponse (closeState s (91 :: 63 :: ds) c) .null) d =
      (strtol (ds ++ [c, 0])).getD d := by
  have hw : window (storedMem s.outbuf (27 :: 91 :: 63 :: (ds ++ [c]))) 4 (ds.length + 2)
      = ds ++ [c, 0] := by
    have := window_storedMem s.outbuf (27 :: 91 :: 63 :: (ds ++ [c])) 3 (by simp)
    have e : (27 :: 91 :: 63 :: (ds ++ [c])).length + 1 - 3 = ds.length + 2 := by simp
    rw [e] at this
    simpa using this
  rw [getN_eq]
  simp only [writeResponse, closeState, openState, List.head?_cons, List.tail_cons,
    decide_True, Bool.and_self, if_true,
    List.length_cons, List.cons_append]
  show (strtol (window (storedMem s.outbuf (27 :: 91 :: 63 :: (ds ++ [c]))) 4 (ds.length + 2))).getD d = _
  rw [hw]

/-- The result of a whole escape sequence when the soft-wrap block of `update` does
not fire on the terminating call: the dispatcher's state with the buffer pointer
rewound and the column replayed over the dispatcher's output. -/
theorem feed_escape_result (h : Header) (s : AnsiEscapeProcessor) (bs : List Nat) (c : Nat)
    (hidle : s.escState = .escStateNone) (hp : s.pBuf = 1)
    (hacc : accumulatesFrom [] bs = true) (hlen : bs.length ≤ h.MAXESCLEN)
    (hterm : terminates bs c = true ∨ h.MAXESCLEN < bs.length + 1)
    (h1 : c ≠ 95) (h2 : c ≠ 91) (h3 : c ≠ 63)
    (T : AnsiEscapeProcessor) (hT : processSequence h (closeState s bs c) = T)
    (hTidle : T.escState = .escStateNone)
    (hnw : ¬ (T.isWrapping = true ∧ T.col = 71)) :
    feed h s (27 :: (bs ++ [c])) = { T with pBuf := 1, col := replay T.col (output T) } := by
  rw [feed_escape h s bs c hidle hp hacc hlen hterm, hT, classify_eq_self T c h1 h2 h3,
    updateFromOutput_eq]
  have hw : updateWrap T c = { T with pBuf := 1 } := by
    unfold updateWrap
    by_cases hw1 : T.isWrapping = true
    · have hw2 : ¬ T.col = MAX_COLUMNS := fun h2 => hnw ⟨hw1, h2⟩
      simp [hTidle, hw1, hw2]
    · simp [hTidle, hw1]
  rw [hw]
  rfl

theorem strtol_seven : strtol [55, 104, 0] = some 7 := by decide

/-- `ESC [ ? 7 h` received away from column 71 turns auto-wrap on and changes
nothing else that matters to the column. -/
theorem feed_set_wrap (h : Header) (s : AnsiEscapeProcessor)
    (hidle : s.escState = .escStateNone) (hp : s.pBuf = 1) (hM : 3 ≤ h.MAXESCLEN)
    (hcol : s.col ≠ 71) :
    (feed h s [27, 91, 63, 55, 104]).escState = .escStateNone ∧
    (feed h s [27, 91, 63, 55, 104]).pBuf = 1 ∧
    (feed h s [27, 91, 63, 55, 104]).isWrapping = true ∧
    (feed h s [27, 91, 63, 55, 104]).col = s.col ∧
    (feed h s [27, 91, 63, 55, 104]).savedCol = s.savedCol := by
  have hT : processSequence h (closeState s [91, 63, 55] 104) =
      { writeResponse (closeState s [91, 63, 55] 104) .null with isWrapping := true } := by
    rw [processSequence_csiQuestion]
    simp [csiQuestionSwitch, getN_csiQuestion, strtol_seven, setMode]
  have hf := feed_escape_result h s [91, 63, 55] 104 hidle hp (by decide) (by simpa using hM)
    (Or.inl (by decide)) (by decide) (by decide) (by decide) _ hT rfl
    (fun hx => hcol hx.2)
  have hf2 : feed h s [27, 91, 63, 55, 104] = _ := hf
  rw [hf2]
  refine ⟨rfl, rfl, rfl, ?_, rfl⟩
  simp [output, window, writeResponse, closeState, openState, storedMem, replay]

theorem update_wrapping_col (h : Header) (s : AnsiEscapeProcessor) (c : Nat)
    (hidle : s.escState = .escStateNone) (hp : s.pBuf = 1) (hw : s.isWrapping = true)
    (hc : 32 ≤ c ∧ c ≤ 126) (hle : s.col ≤ 71) :
    (update h s c).col = if s.col = 71 then 1 else s.col + 1 := by
  have hc27 : c ≠ 27 := by omega
  have hc13 : c ≠ 13 := by omega
  have hpr : isPrintable c = true := by simp [isPrintable, hc.1, hc.2]
  by_cases h71 : s.col = 71
  · rw [update_idle_wrap h s c hidle hp hc27 hw h71, if_pos h71]
    simp [replayChar, hc13, hpr]
  · rw [update_idle_nowrap h s c hidle hp hc27 (fun hx => h71 hx.2), if_neg h71]
    have : s.col < 71 := by omega
    simp [replayChar, hc13, hpr, this]

theorem wrapColumn_succ (n : Nat) :
    (if wrapColumn n = 71 then 1 else wrapColumn n + 1) = wrapColumn (n + 1) := by
  unfold wrapColumn
  by_cases hn : n = 0
  · subst hn; simp
  · simp only [hn, if_false, Nat.succ_ne_zero, Nat.add_sub_cancel]
    split_ifs with h1 <;> omega

theorem feed_wrapping (h : Header) (cs : List Nat) (s : AnsiEscapeProcessor) (n : Nat)
    (hidle : s.escState = .escStateNone) (hp : s.pBuf = 1) (hw : s.isWrapping = true)
    (hprint : ∀ c ∈ cs, 32 ≤ c ∧ c ≤ 126) (hcol : s.col = wrapColumn n) :
    (feed h s cs).col = wrapColumn (n + cs.length) := by
  induction cs generalizing s n with
  | nil => simpa [feed] using hcol
  | cons c cs ih =>
    have hc := hprint c (List.mem_cons_self _ _)
    have hcs : ∀ d ∈ cs, 32 ≤ d ∧ d ≤ 126 := fun d hd => hprint d (List.mem_cons_of_mem _ hd)
    have hc27 : c ≠ 27 := by omega
    have hle : s.col ≤ 71 := by rw [hcol]; unfold wrapColumn; split_ifs <;> omega
    have hf := update_idle_frame h s c hidle hp hc27
    have hcol2 : (update h s c).col = wrapColumn (n + 1) := by
      rw [update_wrapping_col h s c hidle hp hw hc hle, hcol, wrapColumn_succ]
    show (feed h (update h s c) cs).col = _
    rw [ih (update h s c) (n + 1) hf.escState hf.pBuf (hf.isWrapping.trans hw) hcs hcol2]
    simp only [List.length_cons]
    congr 1
    omega

/-! ### Moving the carriage -/

theorem output_writeOutput (s : AnsiEscapeProcessor) (out : List Nat) (n : Nat) :
    outLen (writeOutput s out n) = n ∧ output (writeOutput s out n) = strncpy out n := by
  refine ⟨rfl, ?_⟩
  apply List.ext_getElem
  · simp [output, window, writeOutput, strncpy]
  · intro i h1 h2
    have hi : i < n := by simpa [strncpy] using h2
    have h3 : 1 + i ≤ n := by omega
    have h4 : 1 + i - 1 = i := by omega
    simp [output, window, writeOutput, h3, h4, List.getD_eq_getElem?_getD,
      List.getElem?_eq_getElem h2]

/-- What `moveToColumn` puts in the output buffer, by the position of the clamped
target relative to the column. -/
theorem moveToColumn_output (s : AnsiEscapeProcessor) (n : Int)
    (h0 : 0 ≤ s.col) (h1 : s.col ≤ 71) :
    (clampColumn n = s.col → moveToColumn s n = s) ∧
    (s.col < clampColumn n →
      outLen (moveToColumn s n) = (clampColumn n - s.col).toNat ∧
      output (moveToColumn s n) = List.replicate (clampColumn n - s.col).toNat 32) ∧
    (clampColumn n < s.col →
      outLen (moveToColumn s n) = (clampColumn n).toNat + 1 ∧
      output (moveToColumn s n) = 13 :: List.replicate (clampColumn n).toNat 32) := by
  have hcl : (if (if n < 0 then 0 else n) > MAX_COLUMNS then MAX_COLUMNS
      else (if n < 0 then 0 else n)) = clampColumn n := by
    unfold clampColumn MAX_COLUMNS
    split_ifs <;> omega
  have hc0 : 0 ≤ clampColumn n := by unfold clampColumn; omega
  have hc1 : clampColumn n ≤ 71 := by unfold clampColumn; omega
  unfold moveToColumn
  simp only [hcl]
  refine ⟨fun he => by simp [he], fun hlt => ?_, fun hgt => ?_⟩
  · have hne : ¬ clampColumn n = s.col := by omega
    have hgt : clampColumn n > s.col := hlt
    simp only [hne, hgt, if_false, if_true]
    rw [toUInt8_of_range _ (by omega) (by omega)]
    have ho := output_writeOutput s SPACES (clampColumn n - s.col).toNat
    rw [ho.1, ho.2, strncpy_SPACES _ (by omega)]
    exact ⟨rfl, rfl⟩
  · have hne : ¬ clampColumn n = s.col := by omega
    have hng : ¬ clampColumn n > s.col := by omega
    simp only [hne, hng, if_false]
    rw [toUInt8_of_range _ (by omega) (by omega)]
    have hk : (clampColumn n + 1).toNat = (clampColumn n).toNat + 1 := by omega
    rw [hk]
    have ho := output_writeOutput s CR_SPACES ((clampColumn n).toNat + 1)
    rw [ho.1, ho.2, strncpy_CR_SPACES _ (by omega)]
    exact ⟨rfl, rfl⟩

/-! ## Claims C1 to C4 -/

/-- C1: whatever bytes are fed one at a time to `update` on a freshly constructed
processor, `column()` lies between 0 and 71 (`MAX_COLUMNS`) after every call. -/
theorem C1_column_in_range (h : Header) (mem : AnsiEscapeProcessor) (cs : List Nat) :
    0 ≤ column (feed h (construct mem) cs) ∧
      column (feed h (construct mem) cs) ≤ MAX_COLUMNS := by
  have hr := replay_range (sent h (construct mem) cs) 0 (le_refl _) (by decide)
  rw [← show (feed h (construct mem) cs).col = replay 0 (sent h (construct mem) cs) from
    feed_col_replay h cs (construct mem)] at hr
  exact hr

/-- C2: for every byte sequence fed to `update` on a freshly constructed processor,
`column()` equals the column obtained by starting at 0 and replaying, in order, all
the output buffers returned so far (CR sets 0, a printable byte increments while
below 71, any other byte changes nothing). -/
theorem C2_column_replays_output (h : Header) (mem : AnsiEscapeProcessor) (cs : List Nat) :
    column (feed h (construct mem) cs) = replay 0 (sent h (construct mem) cs) :=
  feed_col_replay h cs (construct mem)

/-- C3: in a reachable idle state (`escStateNone`), `update(ESC)` returns a buffer of
length 0 and enters the accumulating phase with the escape byte count 0; any other
byte `c` returns the buffer `[3, CR, LF, c]` when auto-wrap is on and the column is
71, and `[1, c]` otherwise. -/
theorem C3_idle_update (h : Header) (s : AnsiEscapeProcessor) (c : Nat)
    (hr : Reachable h s) (hidle : s.escState = .escStateNone) :
    (c = ESC → outLen (update h s c) = 0 ∧ (update h s c).escState = .escStateEsc ∧
        (update h s c).nEscChars = 0) ∧
    (c ≠ ESC → outLen (update h s c) :: output (update h s c) =
        if s.isWrapping = true ∧ column s = MAX_COLUMNS then [3, CR, NL, c] else [1, c]) := by
  have hp := reachable_idle_pBuf h s hr hidle
  constructor
  · intro hc
    have hc27 : c = 27 := hc
    subst hc27
    rw [update_idle_esc h s hidle hp]
    exact ⟨rfl, rfl, rfl⟩
  · intro hc
    have hc27 : c ≠ 27 := hc
    by_cases hw : s.isWrapping = true ∧ s.col = 71
    · have ho := output_update_idle_wrap h s c hidle hp hc27 hw.1 hw.2
      have hw2 : s.isWrapping = true ∧ column s = MAX_COLUMNS := hw
      rw [if_pos hw2, ho.1, ho.2]
      rfl
    · have ho := output_update_idle_nowrap h s c hidle hp hc27 hw
      have hw2 : ¬ (s.isWrapping = true ∧ column s = MAX_COLUMNS) := hw
      rw [if_neg hw2, ho.1, ho.2]

/-- Witness of C3 on a fresh processor receiving the letter A. -/
theorem C3_idle_update_witness :
    outLen (update sampleHeader (construct blankMemory) 65) ::
      output (update sampleHeader (construct blankMemory) 65) = [1, 65] :=
  (C3_idle_update sampleHeader (construct blankMemory) 65 (Reachable.construct _) rfl).2
    (by decide)

/-- C4: on a freshly constructed processor (auto-wrap off), after `L` printable bytes
(0x20..0x7E) `column()` is `min(L, 71)`, and the teletype was sent exactly those
bytes: no CR or LF is inserted. -/
theorem C4_plain_text_column (h : Header) (mem : AnsiEscapeProcessor) (cs : List Nat)
    (hprint : ∀ c ∈ cs, 32 ≤ c ∧ c ≤ 126) :
    column (feed h (construct mem) cs) = min (cs.length : Int) 71 ∧
      sent h (construct mem) cs = cs := by
  have hesc : ∀ c ∈ cs, c ≠ 27 := fun c hc => by have := hprint c hc; omega
  have hs := (feed_plain_nowrap h cs (construct mem) rfl rfl rfl hesc).2
  refine ⟨?_, hs⟩
  have h1 : (feed h (construct mem) cs).col = replay 0 (sent h (construct mem) cs) :=
    feed_col_replay h cs (construct mem)
  rw [hs, replay_printable cs 0 hprint (by decide), zero_add] at h1
  exact h1

/-- Witness of C4 on the text "abc". -/
theorem C4_plain_text_column_witness :
    column (feed sampleHeader (construct blankMemory) [97, 98, 99]) = 3 ∧
      sent sampleHeader (construct blankMemory) [97, 98, 99] = [97, 98, 99] :=
  C4_plain_text_column sampleHeader blankMemory [97, 98, 99] (by decide)

/-! ## Claims C5 and C6 -/

theorem feed_printable_col (h : Header) (cs : List Nat) (s : AnsiEscapeProcessor)
    (hidle : s.escState = .escStateNone) (hp : s.pBuf = 1) (hw : s.isWrapping = false)
    (hprint : ∀ c ∈ cs, 32 ≤ c ∧ c ≤ 126) (hle : s.col ≤ 71) :
    (feed h s cs).col = min (s.col + cs.length) 71 := by
  have hesc : ∀ c ∈ cs, c ≠ 27 := fun c hc => by have := hprint c hc; omega
  rw [feed_col_replay, (feed_plain_nowrap h cs s hidle hp hw hesc).2,
    replay_printable cs s.col hprint hle]

/-- C5: on a freshly constructed processor, after `P ≤ 70` printable bytes, then
`ESC [ ? 7 h`, then `Q` printable bytes, with `L = P + Q`, `column()` is 0 if
`L = 0` and `((L - 1) mod 71) + 1` otherwise (the header's cap must let the four
escape bytes through).  Moreover a printable byte received in an idle state at
column 71 with auto-wrap on is emitted as CR, LF, byte and leaves the column at 1. -/
theorem C5_auto_wrap (h : Header) (mem : AnsiEscapeProcessor) (ps qs : List Nat)
    (hM : 3 ≤ h.MAXESCLEN)
    (hps : ∀ c ∈ ps, 32 ≤ c ∧ c ≤ 126) (hqs : ∀ c ∈ qs, 32 ≤ c ∧ c ≤ 126)
    (hP : ps.length ≤ 70) :
    column (feed h (construct mem) (ps ++ [27, 91, 63, 55, 104] ++ qs)) =
        (if ps.length + qs.length = 0 then (0 : Int)
          else (((ps.length + qs.length - 1) % 71 + 1 : Nat) : Int)) ∧
    (∀ (s : AnsiEscapeProcessor) (c : Nat), Reachable h s → s.escState = .escStateNone →
        s.isWrapping = true → column s = 71 → 32 ≤ c ∧ c ≤ 126 →
        output (update h s c) = [13, 10, c] ∧ column (update h s c) = 1) := by
  constructor
  · have hesc : ∀ c ∈ ps, c ≠ 27 := fun c hc => by have := hps c hc; omega
    have hf1 := (feed_plain_nowrap h ps (construct mem) rfl rfl rfl hesc).1
    have hc1 : (feed h (construct mem) ps).col = ps.length := by
      rw [feed_printable_col h ps (construct mem) rfl rfl rfl hps
        (show (0 : Int) ≤ 71 by decide)]
      show min (0 + (ps.length : Int)) 71 = _
      omega
    have hw1 : (feed h (construct mem) ps).isWrapping = false := hf1.isWrapping
    have hf2 := feed_set_wrap h (feed h (construct mem) ps) hf1.escState hf1.pBuf hM
      (by rw [hc1]; omega)
    have hc2 : (feed h (feed h (construct mem) ps) [27, 91, 63, 55, 104]).col
        = wrapColumn ps.length := by
      rw [hf2.2.2.2.1, hc1]
      unfold wrapColumn
      split_ifs <;> omega
    rw [feed_append, feed_append]
    show (feed h (feed h (feed h (construct mem) ps) [27, 91, 63, 55, 104]) qs).col
      = wrapColumn (ps.length + qs.length)
    exact feed_wrapping h qs _ ps.length hf2.1 hf2.2.1 hf2.2.2.1 hqs hc2
  · intro s c hr hidle hw hcol hc
    have hp := reachable_idle_pBuf h s hr hidle
    have hc27 : c ≠ 27 := by omega
    refine ⟨(output_update_idle_wrap h s c hidle hp hc27 hw hcol).2, ?_⟩
    have hcol2 : s.col = 71 := hcol
    show (update h s c).col = 1
    rw [update_wrapping_col h s c hidle hp hw hc (by omega), if_pos hcol2]

/-- Witness of C5: "a", `ESC [ ? 7 h`, "b" leaves the column at 2. -/
theorem C5_auto_wrap_witness :
    column (feed sampleHeader (construct blankMemory) ([97] ++ [27, 91, 63, 55, 104] ++ [98]))
      = 2 :=
  (C5_auto_wrap sampleHeader blankMemory [97] [98] (by decide) (by decide) (by decide)
    (by decide)).1

/-- C6: in a state with column `c` in `[0, 71]`, for every integer target `n` with
`t = min(max(n, 0), 71)`: `moveToColumn(n)` changes nothing if `t = c`; sets the
output buffer to exactly `t - c` blanks (length `t - c`) if `t > c`; and to one
carriage return followed by exactly `t` blanks (length `t + 1`) if `t < c`. -/
theorem C6_moveToColumn (s : AnsiEscapeProcessor) (n : Int)
    (h0 : 0 ≤ column s) (h1 : column s ≤ 71) :
    (min (max n 0) 71 = column s → moveToColumn s n = s) ∧
    (column s < min (max n 0) 71 →
      outLen (moveToColumn s n) = (min (max n 0) 71 - column s).toNat ∧
      output (moveToColumn s n) = List.replicate (min (max n 0) 71 - column s).toNat 32) ∧
    (min (max n 0) 71 < column s →
      outLen (moveToColumn s n) = (min (max n 0) 71).toNat + 1 ∧
      output (moveToColumn s n) = CR :: List.replicate (min (max n 0) 71).toNat 32) :=
  moveToColumn_output s n h0 h1

/-- Witness of C6: from column 0, target 5 puts five blanks in the buffer. -/
theorem C6_moveToColumn_witness :
    outLen (moveToColumn (construct blankMemory) 5) = 5 ∧
      output (moveToColumn (construct blankMemory) 5) = [32, 32, 32, 32, 32] :=
  (C6_moveToColumn (construct blankMemory) 5 (by decide) (by decide)).2.1 (by decide)

/-! ### Cursor moves and reports by escape sequence -/

theorem replay_blanks (k : Nat) (col : Int) (h1 : col ≤ 71) :
    replay col (List.replicate k 32) = min (col + k) 71 := by
  have := replay_printable (List.replicate k 32) col
    (fun c hc => by rw [List.eq_of_mem_replicate hc]; omega) h1
  simpa using this

/-- `moveToColumn` writes to the output buffer and its pointer only. -/
theorem moveToColumn_frame (s : AnsiEscapeProcessor) (n : Int) :
    moveToColumn s n =
      { s with pBuf := (moveToColumn s n).pBuf, outbuf := (moveToColumn s n).outbuf } := by
  unfold moveToColumn
  simp only []
  split_ifs <;> rfl

/-- Replaying what `moveToColumn` wrote brings the column to the clamped target. -/
theorem moveToColumn_replay (s : AnsiEscapeProcessor) (n : Int)
    (h0 : 0 ≤ s.col) (h1 : s.col ≤ 71) (hlen : s.outbuf 0 = 0) :
    replay s.col (output (moveToColumn s n)) = clampColumn n := by
  have hc0 : 0 ≤ clampColumn n := by unfold clampColumn; omega
  have hc1 : clampColumn n ≤ 71 := by unfold clampColumn; omega
  obtain ⟨he, hl, hg⟩ := moveToColumn_output s n h0 h1
  rcases lt_trichotomy (clampColumn n) s.col with hlt | heq | hgt
  · rw [(hg hlt).2]
    show replay (replayChar s.col 13) _ = _
    have : replayChar s.col 13 = 0 := by simp [replayChar]
    rw [this, replay_blanks _ 0 (by decide)]
    omega
  · rw [he heq]
    simp [output, hlen, window, replay, heq]
  · rw [(hl hgt).2, replay_blanks _ _ h1]
    omega

/-- An escape sequence whose dispatch is a `moveToColumn`, received while the
soft-wrap block cannot fire: the column ends at the clamped target. -/
theorem feed_escape_move (h : Header) (s : AnsiEscapeProcessor) (bs : List Nat) (c : Nat)
    (hidle : s.escState = .escStateNone) (hp : s.pBuf = 1)
    (hacc : accumulatesFrom [] bs = true) (hlen : bs.length ≤ h.MAXESCLEN)
    (hterm : terminates bs c = true ∨ h.MAXESCLEN < bs.length + 1)
    (h1 : c ≠ 95) (h2 : c ≠ 91) (h3 : c ≠ 63)
    (h0 : 0 ≤ s.col) (h71 : s.col ≤ 71) (hnw : ¬ (s.isWrapping = true ∧ s.col = 71))
    (W : AnsiEscapeProcessor) (target : Int)
    (hT : processSequence h (closeState s bs c) = moveToColumn W target)
    (hWs : W.escState = .escStateNone) (hWc : W.col = s.col) (hW0 : W.outbuf 0 = 0)
    (hWw : W.isWrapping = s.isWrapping) (hWv : W.savedCol = s.savedCol) :
    (feed h s (27 :: (bs ++ [c]))).col = clampColumn target ∧
      IdleFrame s (feed h s (27 :: (bs ++ [c]))) := by
  have hfr := moveToColumn_frame W target
  have hTs : (moveToColumn W target).escState = .escStateNone := by rw [hfr]; exact hWs
  have hTw : (moveToColumn W target).isWrapping = s.isWrapping := by rw [hfr]; exact hWw
  have hTv : (moveToColumn W target).savedCol = s.savedCol := by rw [hfr]; exact hWv
  have hTc : (moveToColumn W target).col = s.col := by rw [moveToColumn_col]; exact hWc
  have hf := feed_escape_result h s bs c hidle hp hacc hlen hterm h1 h2 h3 _ hT hTs
    (by rw [hTw, hTc]; exact hnw)
  rw [hf]
  refine ⟨?_, ⟨hTs, rfl, hTv, hTw⟩⟩
  show replay (moveToColumn W target).col _ = _
  rw [moveToColumn_col]
  exact moveToColumn_replay W target (by rw [hWc]; exact h0) (by rw [hWc]; exact h71) hW0

/-- The response left by a whole escape sequence is the one its dispatch set. -/
theorem getResponse_feed_escape (h : Header) (s : AnsiEscapeProcessor) (bs : List Nat) (c : Nat)
    (hidle : s.escState = .escStateNone) (hp : s.pBuf = 1)
    (hacc : accumulatesFrom [] bs = true) (hlen : bs.length ≤ h.MAXESCLEN)
    (hterm : terminates bs c = true ∨ h.MAXESCLEN < bs.length + 1) :
    getResponse (feed h s (27 :: (bs ++ [c]))) =
      getResponse (processSequence h (closeState s bs c)) := by
  rw [feed_escape h s bs c hidle hp hacc hlen hterm, updateFromOutput_eq]
  generalize processSequence h (closeState s bs c) = T
  unfold updateWrap
  simp only [classify]
  split_ifs <;> rfl

theorem isdigit_not_alpha (d : Nat) (hd : isdigit d = true) : isAlpha d = false ∧ d ≠ 63 := by
  simp only [isdigit, Bool.and_eq_true, decide_eq_true_eq] at hd
  refine ⟨?_, by omega⟩
  simp only [isAlpha, Bool.or_eq_false_iff, Bool.and_eq_false_imp, decide_eq_true_eq,
    decide_eq_false_iff_not]
  omega

theorem accumulatesFrom_csi_digits (ds : List Nat) (hds : ∀ d ∈ ds, isdigit d = true) :
    accumulatesFrom [] (91 :: ds) = true ∧ ds.head? ≠ some 63 := by
  constructor
  · have := accumulatesFrom_csi ds [91] rfl (fun d hd => (isdigit_not_alpha d (hds d hd)).1)
    simpa [accumulatesFrom, terminates, isAlpha, isdigit] using this
  · rcases ds with _ | ⟨d, ds⟩
    · simp
    · have := (isdigit_not_alpha d (hds d (List.mem_cons_self _ _))).2
      simpa using this

/-- The parameter `getN` reads from `ESC [ <digits> <letter>`. -/
theorem getN_csi_digits (s : AnsiEscapeProcessor) (ds : List Nat) (c : Nat) (d : Int)
    (hds : ∀ x ∈ ds, isdigit x = true) (hc : isAlpha c = true) :
    getN (writeResponse (closeState s (91 :: ds) c) .null) d =
      if ds = [] then d else min (digitsValue ds : Int) 2147483647 := by
  rw [getN_csi s ds c d (accumulatesFrom_csi_digits ds hds).2]
  by_cases hne : ds = []
  · subst hne
    rw [List.nil_append, strtol_alpha c [0] hc]
    rfl
  · rw [strtol_digits ds c [0] hds hne hc, if_neg hne]
    rfl

/-- `ESC [ <digits> <letter>` dispatched to a `moveToColumn`, received while the
soft-wrap block cannot fire. -/
theorem feed_csi_move (h : Header) (s : AnsiEscapeProcessor) (ds : List Nat) (c : Nat)
    (hidle : s.escState = .escStateNone) (hp : s.pBuf = 1)
    (hds : ∀ x ∈ ds, isdigit x = true) (hlen : ds.length + 1 ≤ h.MAXESCLEN)
    (hc : isAlpha c = true)
    (h0 : 0 ≤ s.col) (h71 : s.col ≤ 71) (hnw : ¬ (s.isWrapping = true ∧ s.col = 71))
    (target : Int)
    (hT : csiSwitch h (writeResponse (closeState s (91 :: ds) c) .null) c =
      moveToColumn (writeResponse (closeState s (91 :: ds) c) .null) target) :
    (feed h s (27 :: 91 :: (ds ++ [c]))).col = clampColumn target ∧
      IdleFrame s (feed h s (27 :: 91 :: (ds ++ [c]))) := by
  obtain ⟨hacc, hq⟩ := accumulatesFrom_csi_digits ds hds
  have hcc : c ≠ 95 ∧ c ≠ 91 ∧ c ≠ 63 := by
    simp only [isAlpha, Bool.or_eq_true, Bool.and_eq_true, decide_eq_true_eq] at hc
    omega
  have hterm : terminates (91 :: ds) c = true := by simp [terminates, hc]
  have hps := processSequence_csi h s ds c hq
  rw [hT] at hps
  exact feed_escape_move h s (91 :: ds) c hidle hp hacc (by simpa using hlen) (Or.inl hterm)
    hcc.1 hcc.2.1 hcc.2.2 h0 h71 hnw _ target hps rfl rfl
    (by simp [writeResponse, closeState, openState, storedMem]) rfl rfl

theorem csiSwitch_forward (h : Header) (W : AnsiEscapeProcessor) :
    csiSwitch h W 67 = moveToColumn W (toInt32 (column W + getN W 1)) := rfl

theorem csiSwitch_backward (h : Header) (W : AnsiEscapeProcessor) :
    csiSwitch h W 68 = moveToColumn W (toInt32 (column W - getN W 1)) := rfl

theorem csiSwitch_absolute (h : Header) (W : AnsiEscapeProcessor) :
    csiSwitch h W 71 = moveToColumn W (getN W 0) := rfl

/-- `ESC [ <digits> C` while the soft-wrap block cannot fire. -/
theorem feed_csi_forward (h : Header) (s : AnsiEscapeProcessor) (ds : List Nat)
    (hidle : s.escState = .escStateNone) (hp : s.pBuf = 1)
    (hds : ∀ x ∈ ds, isdigit x = true) (hlen : ds.length + 1 ≤ h.MAXESCLEN)
    (h0 : 0 ≤ s.col) (h71 : s.col ≤ 71) (hnw : ¬ (s.isWrapping = true ∧ s.col = 71)) :
    (feed h s (27 :: 91 :: (ds ++ [67]))).col =
        clampColumn (toInt32 (s.col +
          (if ds = [] then 1 else min (digitsValue ds : Int) 2147483647))) ∧
      IdleFrame s (feed h s (27 :: 91 :: (ds ++ [67]))) := by
  have hm := feed_csi_move h s ds 67 hidle hp hds hlen (by decide) h0 h71 hnw _
    (csiSwitch_forward h _)
  rw [getN_csi_digits s ds 67 1 hds (by decide)] at hm
  exact hm

/-- `ESC [ <digits> D` while the soft-wrap block cannot fire. -/
theorem feed_csi_backward (h : Header) (s : AnsiEscapeProcessor) (ds : List Nat)
    (hidle : s.escState = .escStateNone) (hp : s.pBuf = 1)
    (hds : ∀ x ∈ ds, isdigit x = true) (hlen : ds.length + 1 ≤ h.MAXESCLEN)
    (h0 : 0 ≤ s.col) (h71 : s.col ≤ 71) (hnw : ¬ (s.isWrapping = true ∧ s.col = 71)) :
    (feed h s (27 :: 91 :: (ds ++ [68]))).col =
        clampColumn (toInt32 (s.col -
          (if ds = [] then 1 else min (digitsValue ds : Int) 2147483647))) ∧
      IdleFrame s (feed h s (27 :: 91 :: (ds ++ [68]))) := by
  have hm := feed_csi_move h s ds 68 hidle hp hds hlen (by decide) h0 h71 hnw _
    (csiSwitch_backward h _)
  rw [getN_csi_digits s ds 68 1 hds (by decide)] at hm
  exact hm

/-- `ESC [ <digits> G` while the soft-wrap block cannot fire. -/
theorem feed_csi_absolute (h : Header) (s : AnsiEscapeProcessor) (ds : List Nat)
    (hidle : s.escState = .escStateNone) (hp : s.pBuf = 1)
    (hds : ∀ x ∈ ds, isdigit x = true) (hlen : ds.length + 1 ≤ h.MAXESCLEN)
    (h0 : 0 ≤ s.col) (h71 : s.col ≤ 71) (hnw : ¬ (s.isWrapping = true ∧ s.col = 71)) :
    (feed h s (27 :: 91 :: (ds ++ [71]))).col =
        clampColumn (if ds = [] then 0 else min (digitsValue ds : Int) 2147483647) ∧
      IdleFrame s (feed h s (27 :: 91 :: (ds ++ [71]))) := by
  have hm := feed_csi_move h s ds 71 hidle hp hds hlen (by decide) h0 h71 hnw _
    (csiSwitch_absolute h _)
  rw [getN_csi_digits s ds 71 0 hds (by decide)] at hm
  exact hm

theorem clamp_forward (c : Int) (N : Nat) (h0 : 0 ≤ c) (h71 : c ≤ 71) (hN : N ≤ 9999) :
    clampColumn (toInt32 (c + min (N : Int) 2147483647)) = min (c + N) 71 := by
  rw [toInt32_of_range _ (by omega) (by omega)]
  unfold clampColumn
  omega

theorem clamp_backward (c : Int) (N : Nat) (h0 : 0 ≤ c) (h71 : c ≤ 71) (hN : N ≤ 9999) :
    clampColumn (toInt32 (c - min (N : Int) 2147483647)) = max (c - N) 0 := by
  rw [toInt32_of_range _ (by omega) (by omega)]
  unfold clampColumn
  omega

theorem clamp_absolute (N : Nat) :
    clampColumn (min (N : Int) 2147483647) = min (N : Int) 71 := by
  unfold clampColumn
  omega

theorem decimal_length_le_four (N : Nat) (hN : N ≤ 9999) : (decimal N).length ≤ 4 :=
  (decimal_spec N).2.2.2 4 (by decide) (by norm_num; omega)

/-! ## Claims C7 to C10 -/

/-- C8: from a reachable idle state with auto-wrap off and column `c`, for `N` in
`0..9999` written in decimal, `ESC [ <N> C` leaves `column() = min(c + N, 71)` and
`ESC [ <N> D` leaves `column() = max(c - N, 0)`; with the parameter omitted `N` is 1.
(The header's cap must let the digits through: `MAXESCLEN ≥ 5`.) -/
theorem C8_csi_forward_backward (h : Header) (s : AnsiEscapeProcessor) (N : Nat)
    (hr : Reachable h s) (hidle : s.escState = .escStateNone) (hw : s.isWrapping = false)
    (hM : 5 ≤ h.MAXESCLEN) (hN : N ≤ 9999) :
    column (feed h s ([27, 91] ++ decimal N ++ [67])) = min (column s + N) 71 ∧
    column (feed h s ([27, 91] ++ decimal N ++ [68])) = max (column s - N) 0 ∧
    column (feed h s [27, 91, 67]) = min (column s + 1) 71 ∧
    column (feed h s [27, 91, 68]) = max (column s - 1) 0 := by
  have hp := reachable_idle_pBuf h s hr hidle
  obtain ⟨h0, h71⟩ := reachable_col_range h s hr
  have hnw : ¬ (s.isWrapping = true ∧ s.col = 71) := by simp [hw]
  obtain ⟨hds, hne, hv, -⟩ := decimal_spec N
  have hl4 := decimal_length_le_four N hN
  have hf := (feed_csi_forward h s (decimal N) hidle hp hds (by omega) h0 h71 hnw).1
  have hb := (feed_csi_backward h s (decimal N) hidle hp hds (by omega) h0 h71 hnw).1
  have hf1 := (feed_csi_forward h s [] hidle hp (by simp) (by simp; omega) h0 h71 hnw).1
  have hb1 := (feed_csi_backward h s [] hidle hp (by simp) (by simp; omega) h0 h71 hnw).1
  rw [if_neg hne, hv, clamp_forward s.col N h0 h71 hN] at hf
  rw [if_neg hne, hv, clamp_backward s.col N h0 h71 hN] at hb
  have e1 := clamp_forward s.col 1 h0 h71 (by decide)
  have e2 := clamp_backward s.col 1 h0 h71 (by decide)
  simp only [if_true, List.nil_append] at hf1 hb1
  exact ⟨hf, hb, hf1.trans e1, hb1.trans e2⟩

/-- Witness of C8: after "abc", `ESC [ 2 C` leaves column 5 and `ESC [ 2 D` column 1. -/
theorem C8_csi_forward_backward_witness :
    column (feed sampleHeader (feed sampleHeader (construct blankMemory) [97, 98, 99])
      ([27, 91] ++ decimal 2 ++ [67])) = 5 ∧
    column (feed sampleHeader (feed sampleHeader (construct blankMemory) [97, 98, 99])
      ([27, 91] ++ decimal 2 ++ [68])) = 1 :=
  ⟨(C8_csi_forward_backward sampleHeader
      (feed sampleHeader (construct blankMemory) [97, 98, 99]) 2
      (Reachable.update _ 99 (Reachable.update _ 98 (Reachable.update _ 97
        (Reachable.construct blankMemory) (by decide)) (by decide)) (by decide))
      rfl rfl (by decide) (by decide)).1,
   (C8_csi_forward_backward sampleHeader
      (feed sampleHeader (construct blankMemory) [97, 98, 99]) 2
      (Reachable.update _ 99 (Reachable.update _ 98 (Reachable.update _ 97
        (Reachable.construct blankMemory) (by decide)) (by decide)) (by decide))
      rfl rfl (by decide) (by decide)).2.1⟩

theorem simpleSwitch_save (W : AnsiEscapeProcessor) :
    simpleSwitch W 55 = { W with savedCol := column W } := rfl

theorem simpleSwitch_restore (W : AnsiEscapeProcessor) :
    simpleSwitch W 56 = moveToColumn W W.savedCol := rfl

/-- `ESC 7` in an idle state, away from a firing soft wrap: nothing is sent, the
column stays, and the saved column becomes the column. -/
theorem feed_save (h : Header) (s : AnsiEscapeProcessor)
    (hidle : s.escState = .escStateNone) (hp : s.pBuf = 1)
    (hnw : ¬ (s.isWrapping = true ∧ s.col = 71)) :
    (feed h s [27, 55]).escState = .escStateNone ∧ (feed h s [27, 55]).pBuf = 1 ∧
    (feed h s [27, 55]).isWrapping = s.isWrapping ∧ (feed h s [27, 55]).col = s.col ∧
    (feed h s [27, 55]).savedCol = s.col ∧ sent h s [27, 55] = [] := by
  have hT : processSequence h (closeState s [] 55) =
      { writeResponse (closeState s [] 55) .null with savedCol := s.col } := by
    rw [processSequence_simple, simpleSwitch_save]
    rfl
  have hf := feed_escape_result h s [] 55 hidle hp rfl (Nat.zero_le _) (Or.inl (by decide))
    (by decide) (by decide) (by decide) _ hT rfl hnw
  have hf2 : feed h s [27, 55] = _ := hf
  have hout : output (feed h s [27, 55]) = [] := by
    rw [hf2]
    simp [output, window, writeResponse, closeState, openState, storedMem]
  have hcol : (feed h s [27, 55]).col = s.col := by
    rw [hf2]
    simp [output, window, writeResponse, closeState, openState, storedMem, replay]
  refine ⟨(congrArg AnsiEscapeProcessor.escState hf2).trans rfl,
    (congrArg AnsiEscapeProcessor.pBuf hf2).trans rfl,
    (congrArg AnsiEscapeProcessor.isWrapping hf2).trans rfl, hcol,
    (congrArg AnsiEscapeProcessor.savedCol hf2).trans rfl, ?_⟩
  show output (update h s 27) ++ (output (feed h s [27, 55]) ++ []) = []
  rw [hout, update_idle_esc h s hidle hp]
  simp [output, window, accumState, storedMem]

/-- `ESC 8` in an idle state, away from a firing soft wrap: the column becomes the
saved column, clamped. -/
theorem feed_restore (h : Header) (s : AnsiEscapeProcessor)
    (hidle : s.escState = .escStateNone) (hp : s.pBuf = 1)
    (h0 : 0 ≤ s.col) (h71 : s.col ≤ 71) (hnw : ¬ (s.isWrapping = true ∧ s.col = 71)) :
    (feed h s [27, 56]).col = clampColumn s.savedCol := by
  have hT : processSequence h (closeState s [] 56) =
      moveToColumn (writeResponse (closeState s [] 56) .null) s.savedCol := by
    rw [processSequence_simple, simpleSwitch_restore]
    rfl
  exact (feed_escape_move h s [] 56 hidle hp rfl (Nat.zero_le _) (Or.inl (by decide))
    (by decide) (by decide) (by decide) h0 h71 hnw _ _ hT rfl rfl
    (by simp [writeResponse, closeState, openState, storedMem]) rfl rfl).1

/-- C9: on a freshly constructed processor, for all strings `p`, `q` of printable
bytes, after `p`, `ESC 7`, `q`, `ESC 8` the column is `min(|p|, 71)`, the column at
the time of `ESC 7`; and `ESC 7` itself sends nothing and does not change the column. -/
theorem C9_save_restore (h : Header) (mem : AnsiEscapeProcessor) (p q : List Nat)
    (hpp : ∀ c ∈ p, 32 ≤ c ∧ c ≤ 126) (hqp : ∀ c ∈ q, 32 ≤ c ∧ c ≤ 126) :
    column (feed h (construct mem) (p ++ [27, 55] ++ q ++ [27, 56])) = min (p.length : Int) 71 ∧
    sent h (feed h (construct mem) p) [27, 55] = [] ∧
    column (feed h (construct mem) (p ++ [27, 55])) = column (feed h (construct mem) p) := by
  have hpe : ∀ c ∈ p, c ≠ 27 := fun c hc => by have := hpp c hc; omega
  have hqe : ∀ c ∈ q, c ≠ 27 := fun c hc => by have := hqp c hc; omega
  -- after `p`
  have hf1 := (feed_plain_nowrap h p (construct mem) rfl rfl rfl hpe).1
  have hw1 : (feed h (construct mem) p).isWrapping = false := hf1.isWrapping
  have hc1 : (feed h (construct mem) p).col = min (p.length : Int) 71 := by
    rw [feed_printable_col h p (construct mem) rfl rfl rfl hpp (show (0 : Int) ≤ 71 by decide)]
    show min (0 + (p.length : Int)) 71 = _
    rw [zero_add]
  -- after `ESC 7`
  obtain ⟨hs2, hp2, hw2, hc2, hv2, hsent⟩ :=
    feed_save h (feed h (construct mem) p) hf1.escState hf1.pBuf (by simp [hw1])
  rw [hw1] at hw2
  -- after `q`
  have hf3 := (feed_plain_nowrap h q _ hs2 hp2 hw2 hqe).1
  have hc3 := feed_printable_col h q _ hs2 hp2 hw2 hqp (by rw [hc2, hc1]; omega)
  have hw3 := hf3.isWrapping.trans hw2
  -- after `ESC 8`
  have hr := feed_restore h _ hf3.escState hf3.pBuf (by rw [hc3, hc2, hc1]; omega)
    (by rw [hc3]; omega) (by simp [hw3])
  rw [hf3.savedCol, hv2, hc1] at hr
  refine ⟨?_, hsent, ?_⟩
  · rw [feed_append, feed_append, feed_append]
    show (feed h (feed h (feed h (feed h (construct mem) p) [27, 55]) q) [27, 56]).col = _
    rw [hr]
    unfold clampColumn
    omega
  · rw [feed_append]
    exact hc2

/-- Witness of C9: "abc", `ESC 7`, "def", `ESC 8` ends at column 3. -/
theorem C9_save_restore_witness :
    column (feed sampleHeader (construct blankMemory)
      ([97, 98, 99] ++ [27, 55] ++ [100, 101, 102] ++ [27, 56])) = 3 :=
  (C9_save_restore sampleHeader blankMemory [97, 98, 99] [100, 101, 102] (by decide)
    (by decide)).1

theorem csiSwitch_status (h : Header) (W : AnsiEscapeProcessor) :
    csiSwitch h W 110 = sendDSR W (getN W 0) := rfl

/-- The cursor position report `sendDSR(6)` publishes for a column in range. -/
theorem getResponse_sendDSR_six (W : AnsiEscapeProcessor) (h0 : 0 ≤ W.col) (h71 : W.col ≤ 71) :
    getResponse (sendDSR W 6) = some ([27, 91, 48, 59] ++ decimal W.col.toNat ++ [82]) := by
  have hlen : (decimal W.col.toNat).length ≤ 2 :=
    (decimal_spec W.col.toNat).2.2.2 2 (by decide) (by norm_num; omega)
  have hfmt : formatInt W.col = decimal W.col.toNat := by
    unfold formatInt
    rw [if_neg (by omega)]
  have hlt : ([27, 91, 48, 59] ++ decimal W.col.toNat ++ [82]).length < 32 := by
    simp only [List.length_append, List.length_cons, List.length_nil]
    omega
  unfold sendDSR
  rw [if_neg (by decide), if_neg (by decide), if_pos rfl]
  simp only [hfmt]
  rw [if_pos hlt]
  simp only [getResponse, writeResponse]
  rw [List.take_of_length_le (by omega)]

/-- C10: from a reachable idle state with column `k`, after `ESC [ 6 n` the response
is ESC `[0;` followed by `k` in decimal followed by `R`: the row is always 0 and the
column field is the tracked column.  (The header's cap must let `[6` through.) -/
theorem C10_cursor_position_report (h : Header) (s : AnsiEscapeProcessor)
    (hr : Reachable h s) (hidle : s.escState = .escStateNone) (hM : 2 ≤ h.MAXESCLEN) :
    getResponse (feed h s [27, 91, 54, 110]) =
      some ([27, 91, 48, 59] ++ decimal (column s).toNat ++ [82]) := by
  have hp := reachable_idle_pBuf h s hr hidle
  obtain ⟨h0, h71⟩ := reachable_col_range h s hr
  have hds : ∀ x ∈ [54], isdigit x = true := by decide
  have hg := getResponse_feed_escape h s [91, 54] 110 hidle hp (by decide) (by simpa using hM)
    (Or.inl (by decide))
  have hN := getN_csi_digits s [54] 110 0 hds (by decide)
  have h6 : (if ([54] : List Nat) = [] then (0 : Int)
      else min (digitsValue [54] : Int) 2147483647) = 6 := by decide
  rw [h6] at hN
  rw [processSequence_csi h s [54] 110 (by decide), csiSwitch_status, hN] at hg
  have hfeed : getResponse (feed h s [27, 91, 54, 110]) = _ := hg
  rw [hfeed]
  exact getResponse_sendDSR_six _ h0 h71

/-- Witness of C10: after "abc" on a fresh processor the report is ESC `[0;3R`. -/
theorem C10_cursor_position_report_witness :
    getResponse (feed sampleHeader (feed sampleHeader (construct blankMemory) [97, 98, 99])
      [27, 91, 54, 110]) = some [27, 91, 48, 59, 51, 82] :=
  C10_cursor_position_report sampleHeader
    (feed sampleHeader (construct blankMemory) [97, 98, 99])
    (Reachable.update _ 99 (Reachable.update _ 98 (Reachable.update _ 97
      (Reachable.construct blankMemory) (by decide)) (by decide)) (by decide))
    rfl (by decide)

theorem output_accumState (s : AnsiEscapeProcessor) (bs : List Nat) :
    output (accumState s bs) = [] := by
  simp [output, window, accumState, storedMem]

/-- While a sequence accumulates nothing is sent: what a whole escape sequence
sends is the buffer returned for its last byte. -/
theorem sent_accum (h : Header) (s : AnsiEscapeProcessor) (bs pre : List Nat) (c : Nat)
    (hacc : accumulatesFrom pre bs = true) (hlen : pre.length + bs.length ≤ h.MAXESCLEN) :
    sent h (accumState s pre) (bs ++ [c]) = output (update h (accumState s (pre ++ bs)) c) := by
  induction bs generalizing pre with
  | nil => simp [sent]
  | cons b rest ih =>
    simp only [accumulatesFrom, Bool.and_eq_true, Bool.not_eq_true'] at hacc
    simp only [List.length_cons] at hlen
    show output (update h (accumState s pre) b) ++ sent h (update h (accumState s pre) b)
      (rest ++ [c]) = _
    rw [update_accum_step h s pre b hacc.1 (by omega), output_accumState,
      ih (pre ++ [b]) hacc.2 (by simp; omega)]
    simp

theorem sent_escape (h : Header) (s : AnsiEscapeProcessor) (bs : List Nat) (c : Nat)
    (hidle : s.escState = .escStateNone) (hp : s.pBuf = 1)
    (hacc : accumulatesFrom [] bs = true) (hlen : bs.length ≤ h.MAXESCLEN) :
    sent h s (27 :: (bs ++ [c])) = output (feed h s (27 :: (bs ++ [c]))) := by
  show output (update h s 27) ++ sent h (update h s 27) (bs ++ [c]) =
    output (feed h (update h s 27) (bs ++ [c]))
  rw [update_idle_esc h s hidle hp, output_accumState, List.nil_append,
    sent_accum h s bs [] c hacc (by simpa using hlen), feed_append,
    feed_accum h s bs [] hacc (by simpa using hlen)]
  rfl

/-- A whole escape sequence ending while auto-wrap is on and the column is 71: the
soft-wrap block of `update` fires on the terminating call and replaces whatever the
dispatcher wrote by CR, LF and the terminating byte itself. -/
theorem feed_escape_margin (h : Header) (s : AnsiEscapeProcessor) (bs : List Nat) (c : Nat)
    (hidle : s.escState = .escStateNone) (hp : s.pBuf = 1)
    (hacc : accumulatesFrom [] bs = true) (hlen : bs.length ≤ h.MAXESCLEN)
    (hterm : terminates bs c = true ∨ h.MAXESCLEN < bs.length + 1)
    (h1 : c ≠ 95) (h2 : c ≠ 91) (h3 : c ≠ 63)
    (T : AnsiEscapeProcessor) (hT : processSequence h (closeState s bs c) = T)
    (hTs : T.escState = .escStateNone) (hTw : T.isWrapping = true) (hTc : T.col = 71) :
    output (feed h s (27 :: (bs ++ [c]))) = [13, 10, c] ∧
      (feed h s (27 :: (bs ++ [c]))).col = replayChar 0 c := by
  rw [feed_escape h s bs c hidle hp hacc hlen hterm, hT, classify_eq_self T c h1 h2 h3,
    output_updateFromOutput, updateFromOutput_eq]
  have hTc2 : T.col = MAX_COLUMNS := hTc
  have hw : updateWrap T c = writeOutput { T with pBuf := 1 } [13, 10, c] 3 := by
    unfold updateWrap
    simp [hTs, hTw, hTc2]
  rw [hw, output_writeOutput_wrap]
  refine ⟨rfl, ?_⟩
  show replay T.col [13, 10, c] = _
  simp [replay, replayChar, isPrintable]

/-- `ESC [ <digits> G` received at column 71 with auto-wrap on: the teletype is sent
CR, LF and the letter G, and the column ends at 1 whatever the parameter. -/
theorem feed_csi_absolute_margin (h : Header) (s : AnsiEscapeProcessor) (ds : List Nat)
    (hidle : s.escState = .escStateNone) (hp : s.pBuf = 1)
    (hds : ∀ x ∈ ds, isdigit x = true) (hlen : ds.length + 1 ≤ h.MAXESCLEN)
    (hw : s.isWrapping = true) (hcol : s.col = 71) :
    sent h s (27 :: 91 :: (ds ++ [71])) = [13, 10, 71] ∧
      (feed h s (27 :: 91 :: (ds ++ [71]))).col = 1 := by
  obtain ⟨hacc, hq⟩ := accumulatesFrom_csi_digits ds hds
  have hterm : terminates (91 :: ds) 71 = true := by simp [terminates, isAlpha]
  have hT := processSequence_csi h s ds 71 hq
  rw [csiSwitch_absolute] at hT
  have hfr := moveToColumn_frame (writeResponse (closeState s (91 :: ds) 71) .null)
    (getN (writeResponse (closeState s (91 :: ds) 71) .null) 0)
  have hm := feed_escape_margin h s (91 :: ds) 71 hidle hp hacc (by simpa using hlen)
    (Or.inl hterm) (by decide) (by decide) (by decide) _ hT
    (by rw [hfr]; rfl) (by rw [hfr]; exact hw) (by rw [moveToColumn_col]; exact hcol)
  have hs := sent_escape h s (91 :: ds) 71 hidle hp hacc (by simpa using hlen)
  exact ⟨hs.trans hm.1, hm.2⟩

/-- The run behind C7 for any header whose cap lets three escape bytes through:
`ESC [ ? 7 h`, `ESC [ 7 1 G`, then `ESC [ 5 G`. -/
theorem absolute_move_margin_run (h : Header) (mem : AnsiEscapeProcessor)
    (hM : 3 ≤ h.MAXESCLEN) :
    (feed h (construct mem)
        ([27, 91, 63, 55, 104] ++ [27, 91, 55, 49, 71])).escState = .escStateNone ∧
    (feed h (construct mem)
        ([27, 91, 63, 55, 104] ++ [27, 91, 55, 49, 71])).isWrapping = true ∧
    column (feed h (construct mem)
        ([27, 91, 63, 55, 104] ++ [27, 91, 55, 49, 71])) = 71 ∧
    sent h (feed h (construct mem)
        ([27, 91, 63, 55, 104] ++ [27, 91, 55, 49, 71])) [27, 91, 53, 71] = [13, 10, 71] ∧
    column (feed h (construct mem)
        ([27, 91, 63, 55, 104] ++ [27, 91, 55, 49, 71] ++ [27, 91, 53, 71])) = 1 := by
  obtain ⟨hs1, hp1, hw1, hc1, -⟩ := feed_set_wrap h (construct mem) rfl rfl hM
    (show (0 : Int) ≠ 71 by decide)
  have hc1b : (feed h (construct mem) [27, 91, 63, 55, 104]).col = 0 := hc1
  obtain ⟨hc2, hf2⟩ := feed_csi_absolute h _ [55, 49] hs1 hp1 (by decide)
    (by simp only [List.length_cons, List.length_nil]; omega)
    (by rw [hc1b]) (by rw [hc1b]; decide)
    (by rw [hc1b]; intro hx; exact absurd hx.2 (by decide))
  have e71 : clampColumn (if ([55, 49] : List Nat) = [] then (0 : Int)
      else min (digitsValue [55, 49] : Int) 2147483647) = 71 := by decide
  rw [e71] at hc2
  have hw2 := hf2.isWrapping.trans hw1
  obtain ⟨hs3, hc3⟩ := feed_csi_absolute_margin h _ [53] hf2.escState hf2.pBuf
    (by decide) (by simp only [List.length_cons, List.length_nil]; omega) hw2 hc2
  simp only [List.cons_append, List.nil_append] at hc2 hf2 hw2 hs3 hc3
  simp only [feed_append, column]
  exact ⟨hf2.escState, hw2, hc2, hs3, hc3⟩

/-- C7 on the code: auto-wrap is turned on (`ESC [ ? 7 h`), the carriage is moved to
column 71 (`ESC [ 7 1 G`), and then `ESC [ 5 G` is received in that idle state.  The
teletype is sent CR, LF and the letter G, and `column()` ends at 1, not at 5. -/
theorem C7_absolute_move_at_margin :
    (feed sampleHeader (construct blankMemory)
        ([27, 91, 63, 55, 104] ++ [27, 91, 55, 49, 71])).escState = .escStateNone ∧
    (feed sampleHeader (construct blankMemory)
        ([27, 91, 63, 55, 104] ++ [27, 91, 55, 49, 71])).isWrapping = true ∧
    column (feed sampleHeader (construct blankMemory)
        ([27, 91, 63, 55, 104] ++ [27, 91, 55, 49, 71])) = 71 ∧
    sent sampleHeader (feed sampleHeader (construct blankMemory)
        ([27, 91, 63, 55, 104] ++ [27, 91, 55, 49, 71])) [27, 91, 53, 71] = [13, 10, 71] ∧
    column (feed sampleHeader (construct blankMemory)
        ([27, 91, 63, 55, 104] ++ [27, 91, 55, 49, 71] ++ [27, 91, 53, 71])) = 1 :=
  absolute_move_margin_run sampleHeader blankMemory (by decide)

/-! ## Claims C12 and C13 -/

theorem csiSwitch_attributes (h : Header) (W : AnsiEscapeProcessor) :
    csiSwitch h W 99 = sendDA h W (getN W 0) := rfl

theorem csiQuestionSwitch_status (W : AnsiEscapeProcessor) :
    csiQuestionSwitch W 110 = sendDSR W (getN W 0) := rfl

theorem csiQuestionSwitch_reset (W : AnsiEscapeProcessor) :
    csiQuestionSwitch W 112 = resetTerminal W := rfl

theorem getResponse_sendDA_zero (h : Header) (W : AnsiEscapeProcessor) :
    getResponse (sendDA h W 0) = some h.IDENT_SEQUENCE := rfl

theorem getResponse_sendDSR_five (W : AnsiEscapeProcessor) :
    getResponse (sendDSR W 5) = some [27, 91, 48, 110] := rfl

theorem getResponse_sendDSR_fifteen (W : AnsiEscapeProcessor) :
    getResponse (sendDSR W 15) = some [27, 91, 63, 49, 51, 110] := rfl

/-- C12: from every reachable idle state, after `ESC [ c` and after `ESC [ 0 c` the
response is the identification string `IDENT_SEQUENCE`; after `ESC [ 5 n` it is
ESC `[0n`; after `ESC [ ? 15 n` it is ESC `[?13n`.  (The header's cap must let the
four bytes `[?15` through.) -/
theorem C12_fixed_responses (h : Header) (s : AnsiEscapeProcessor)
    (hr : Reachable h s) (hidle : s.escState = .escStateNone) (hM : 4 ≤ h.MAXESCLEN) :
    getResponse (feed h s [27, 91, 99]) = some h.IDENT_SEQUENCE ∧
    getResponse (feed h s [27, 91, 48, 99]) = some h.IDENT_SEQUENCE ∧
    getResponse (feed h s [27, 91, 53, 110]) = some [27, 91, 48, 110] ∧
    getResponse (feed h s [27, 91, 63, 49, 53, 110]) = some [27, 91, 63, 49, 51, 110] := by
  have hp := reachable_idle_pBuf h s hr hidle
  refine ⟨?_, ?_, ?_, ?_⟩
  · have hg := getResponse_feed_escape h s [91] 99 hidle hp (by decide)
      (by simp only [List.length_cons, List.length_nil]; omega) (Or.inl (by decide))
    have hN := getN_csi_digits s [] 99 0 (by simp) (by decide)
    rw [if_pos rfl] at hN
    rw [processSequence_csi h s [] 99 (by decide), csiSwitch_attributes, hN,
      getResponse_sendDA_zero] at hg
    exact hg
  · have hg := getResponse_feed_escape h s [91, 48] 99 hidle hp (by decide)
      (by simp only [List.length_cons, List.length_nil]; omega) (Or.inl (by decide))
    have hN := getN_csi_digits s [48] 99 0 (by decide) (by decide)
    have h0 : (if ([48] : List Nat) = [] then (0 : Int)
        else min (digitsValue [48] : Int) 2147483647) = 0 := by decide
    rw [h0] at hN
    rw [processSequence_csi h s [48] 99 (by decide), csiSwitch_attributes, hN,
      getResponse_sendDA_zero] at hg
    exact hg
  · have hg := getResponse_feed_escape h s [91, 53] 110 hidle hp (by decide)
      (by simp only [List.length_cons, List.length_nil]; omega) (Or.inl (by decide))
    have hN := getN_csi_digits s [53] 110 0 (by decide) (by decide)
    have h5 : (if ([53] : List Nat) = [] then (0 : Int)
        else min (digitsValue [53] : Int) 2147483647) = 5 := by decide
    rw [h5] at hN
    rw [processSequence_csi h s [53] 110 (by decide), csiSwitch_status, hN,
      getResponse_sendDSR_five] at hg
    exact hg
  · have hg := getResponse_feed_escape h s [91, 63, 49, 53] 110 hidle hp (by decide)
      (by simp only [List.length_cons, List.length_nil]; omega) (Or.inl (by decide))
    have hN := getN_csiQuestion s [49, 53] 110 0
    have h15 : (strtol ([49, 53] ++ [110, 0])).getD 0 = 15 := by decide
    rw [h15] at hN
    rw [processSequence_csiQuestion h s [49, 53] 110, csiQuestionSwitch_status, hN,
      getResponse_sendDSR_fifteen] at hg
    exact hg

/-- Witness of C12 on a fresh processor, with the identification string the
self-tests expect. -/
theorem C12_fixed_responses_witness :
    getResponse (feed sampleHeader (construct blankMemory) [27, 91, 99])
      = some [27, 91, 63, 49, 59, 48, 99] :=
  (C12_fixed_responses sampleHeader (construct blankMemory) (Reachable.construct _) rfl
    (by decide)).1

/-- `ESC [ ? p` in an idle state: the state after the terminating call. -/
theorem feed_soft_reset (h : Header) (s : AnsiEscapeProcessor)
    (hidle : s.escState = .escStateNone) (hp : s.pBuf = 1) (hM : 2 ≤ h.MAXESCLEN) :
    feed h s [27, 91, 63, 112] =
      updateFromOutput (updateWrap
        (resetTerminal (writeResponse (closeState s [91, 63] 112) .null)) 112) := by
  have hf := feed_escape h s [91, 63] 112 hidle hp (by decide)
    (by simp only [List.length_cons, List.length_nil]; omega) (Or.inl (by decide))
  rw [processSequence_csiQuestion h s [] 112, csiQuestionSwitch_reset,
    classify_eq_self _ 112 (by decide) (by decide) (by decide)] at hf
  exact hf

/-- C13: from every reachable idle state, feeding `ESC [ ? p` makes `update` return
the buffer `[2, CR, LF]` on the terminator; afterwards the column is 0, auto-wrap is
off, the NL-to-CRNL and delay flags are `true`, the phase is idle, and the soft-reset
flag is set.  (The header's cap must let `[?` through.) -/
theorem C13_soft_reset (h : Header) (s : AnsiEscapeProcessor)
    (hr : Reachable h s) (hidle : s.escState = .escStateNone) (hM : 2 ≤ h.MAXESCLEN) :
    outLen (feed h s [27, 91, 63, 112]) :: output (feed h s [27, 91, 63, 112]) = [2, CR, NL] ∧
    column (feed h s [27, 91, 63, 112]) = 0 ∧
    (feed h s [27, 91, 63, 112]).isWrapping = false ∧
    (feed h s [27, 91, 63, 112]).isNLCR = true ∧
    (feed h s [27, 91, 63, 112]).isNulDelays = true ∧
    (feed h s [27, 91, 63, 112]).escState = .escStateNone ∧
    (feed h s [27, 91, 63, 112]).isSoftReset = true := by
  have hp := reachable_idle_pBuf h s hr hidle
  rw [feed_soft_reset h s hidle hp hM, updateFromOutput_eq]
  generalize writeResponse (closeState s [91, 63] 112) .null = W
  refine ⟨rfl, rfl, rfl, rfl, rfl, rfl, rfl⟩

/-- Witness of C13: the soft reset after "abc" on a fresh processor. -/
theorem C13_soft_reset_witness :
    column (feed sampleHeader (feed sampleHeader (construct blankMemory) [97, 98, 99])
      [27, 91, 63, 112]) = 0 :=
  (C13_soft_reset sampleHeader (feed sampleHeader (construct blankMemory) [97, 98, 99])
    (Reachable.update _ 99 (Reachable.update _ 98 (Reachable.update _ 97
      (Reachable.construct blankMemory) (by decide)) (by decide)) (by decide))
    rfl (by decide)).2.1

/-! ### What the dispatcher's helpers leave alone -/

theorem Quiet.quiet_refl (s : AnsiEscapeProcessor) : Quiet s s := ⟨rfl, rfl, rfl, rfl, rfl⟩

theorem Quiet.quiet_trans {s t u : AnsiEscapeProcessor} (h1 : Quiet s t) (h2 : Quiet t u) :
    Quiet s u :=
  ⟨h2.escState.trans h1.escState, h2.nEscChars.trans h1.nEscChars, h2.col.trans h1.col,
    h2.outbuf.trans h1.outbuf, h2.pBuf.trans h1.pBuf⟩

theorem Quiet.output {s t : AnsiEscapeProcessor} (hq : Quiet s t) : output t = output s := by
  unfold AnsiEscapeProcessor.output
  rw [hq.outbuf]

theorem Quiet.outLen {s t : AnsiEscapeProcessor} (hq : Quiet s t) : outLen t = outLen s := by
  unfold AnsiEscapeProcessor.outLen
  rw [hq.outbuf]

theorem writeResponse_quiet (s : AnsiEscapeProcessor) (r : Response) :
    Quiet s (writeResponse s r) := ⟨rfl, rfl, rfl, rfl, rfl⟩

theorem apcCommand_quiet (h : Header) (s : AnsiEscapeProcessor) (b : Nat) :
    Quiet s (apcCommand h s b) := by
  unfold apcCommand
  split_ifs <;> exact ⟨rfl, rfl, rfl, rfl, rfl⟩

theorem readAPCLoop_quiet (h : Header) (k p : Nat) (s : AnsiEscapeProcessor) :
    Quiet s (readAPCLoop h k p s) := by
  induction k generalizing p s with
  | zero => exact Quiet.quiet_refl s
  | succ k ih =>
    unfold readAPCLoop
    split_ifs
    · exact Quiet.quiet_refl s
    · exact (apcCommand_quiet h s _).quiet_trans (ih _ _)

theorem readAPC_quiet (h : Header) (s : AnsiEscapeProcessor) : Quiet s (readAPC h s) :=
  readAPCLoop_quiet h _ _ s

theorem sendDA_quiet (h : Header) (s : AnsiEscapeProcessor) (n : Int) :
    Quiet s (sendDA h s n) := by
  unfold sendDA
  split_ifs <;> exact ⟨rfl, rfl, rfl, rfl, rfl⟩

theorem sendDSR_quiet (s : AnsiEscapeProcessor) (n : Int) : Quiet s (sendDSR s n) := by
  unfold sendDSR
  simp only []
  split_ifs <;> exact ⟨rfl, rfl, rfl, rfl, rfl⟩

theorem setMode_quiet (s : AnsiEscapeProcessor) (n : Int) : Quiet s (setMode s n) := by
  unfold setMode
  split_ifs <;> exact ⟨rfl, rfl, rfl, rfl, rfl⟩

theorem resetMode_quiet (s : AnsiEscapeProcessor) (n : Int) : Quiet s (resetMode s n) := by
  unfold resetMode
  split_ifs <;> exact ⟨rfl, rfl, rfl, rfl, rfl⟩

/-! ### Mode flags through the dispatcher's helpers -/

theorem apcCommand_isWrapping (h : Header) (s : AnsiEscapeProcessor) (b : Nat) :
    (apcCommand h s b).isWrapping = s.isWrapping := by
  unfold apcCommand
  split_ifs <;> rfl

theorem readAPCLoop_isWrapping (h : Header) (k p : Nat) (s : AnsiEscapeProcessor) :
    (readAPCLoop h k p s).isWrapping = s.isWrapping := by
  induction k generalizing p s with
  | zero => rfl
  | succ k ih =>
    unfold readAPCLoop
    split_ifs
    · rfl
    · rw [ih, apcCommand_isWrapping]

theorem sendDA_isWrapping (h : Header) (s : AnsiEscapeProcessor) (n : Int) :
    (sendDA h s n).isWrapping = s.isWrapping := by
  unfold sendDA
  split_ifs <;> rfl

theorem sendDSR_isWrapping (s : AnsiEscapeProcessor) (n : Int) :
    (sendDSR s n).isWrapping = s.isWrapping := by
  unfold sendDSR
  simp only []
  split_ifs <;> rfl

/-! ## Claims C11 and C17 -/

theorem clampColumn_range (n : Int) : 0 ≤ clampColumn n ∧ clampColumn n ≤ 71 := by
  unfold clampColumn
  omega

/-- One move of C, D or G kind in an idle state with auto-wrap off. -/
theorem feed_move (h : Header) (s : AnsiEscapeProcessor) (m : Move)
    (hidle : s.escState = .escStateNone) (hp : s.pBuf = 1) (hw : s.isWrapping = false)
    (h0 : 0 ≤ s.col) (h71 : s.col ≤ 71) (hM : 5 ≤ h.MAXESCLEN) (hm : m.param ≤ 9999) :
    (feed h s m.bytes).col = m.apply s.col ∧ IdleFrame s (feed h s m.bytes) := by
  have hnw : ¬ (s.isWrapping = true ∧ s.col = 71) := by simp [hw]
  cases m with
  | forward n =>
    have hn : n ≤ 9999 := hm
    obtain ⟨hds, hne, hv, -⟩ := decimal_spec n
    have hl4 := decimal_length_le_four n hn
    have hf := feed_csi_forward h s (decimal n) hidle hp hds (by omega) h0 h71 hnw
    rw [if_neg hne, hv, clamp_forward s.col n h0 h71 hn] at hf
    refine ⟨?_, hf.2⟩
    show (feed h s (27 :: 91 :: (decimal n ++ [67]))).col = clampColumn (s.col + n)
    rw [hf.1]
    unfold clampColumn
    omega
  | backward n =>
    have hn : n ≤ 9999 := hm
    obtain ⟨hds, hne, hv, -⟩ := decimal_spec n
    have hl4 := decimal_length_le_four n hn
    have hf := feed_csi_backward h s (decimal n) hidle hp hds (by omega) h0 h71 hnw
    rw [if_neg hne, hv, clamp_backward s.col n h0 h71 hn] at hf
    refine ⟨?_, hf.2⟩
    show (feed h s (27 :: 91 :: (decimal n ++ [68]))).col = clampColumn (s.col - n)
    rw [hf.1]
    unfold clampColumn
    omega
  | absolute n =>
    have hn : n ≤ 9999 := hm
    obtain ⟨hds, hne, hv, -⟩ := decimal_spec n
    have hl4 := decimal_length_le_four n hn
    have hf := feed_csi_absolute h s (decimal n) hidle hp hds (by omega) h0 h71 hnw
    rw [if_neg hne, hv, clamp_absolute n] at hf
    refine ⟨?_, hf.2⟩
    show (feed h s (27 :: 91 :: (decimal n ++ [71]))).col = clampColumn n
    rw [hf.1]
    unfold clampColumn
    omega

theorem Move.apply_range (c : Int) (m : Move) : 0 ≤ m.apply c ∧ m.apply c ≤ 71 := by
  cases m <;> exact clampColumn_range _

/-- A list of moves in an idle state with auto-wrap off: the column follows the
fold of the moves. -/
theorem feed_moves (h : Header) (ms : List Move) (s : AnsiEscapeProcessor)
    (hidle : s.escState = .escStateNone) (hp : s.pBuf = 1) (hw : s.isWrapping = false)
    (h0 : 0 ≤ s.col) (h71 : s.col ≤ 71) (hM : 5 ≤ h.MAXESCLEN)
    (hms : ∀ m ∈ ms, m.param ≤ 9999) :
    (feed h s (movesBytes ms)).col = ms.foldl Move.apply s.col ∧
      IdleFrame s (feed h s (movesBytes ms)) := by
  induction ms generalizing s with
  | nil => exact ⟨rfl, IdleFrame.refl s hidle hp⟩
  | cons m ms ih =>
    have hm := hms m (List.mem_cons_self _ _)
    have hrest : ∀ x ∈ ms, x.param ≤ 9999 := fun x hx => hms x (List.mem_cons_of_mem _ hx)
    obtain ⟨hc1, hf1⟩ := feed_move h s m hidle hp hw h0 h71 hM hm
    have hr1 := Move.apply_range s.col m
    obtain ⟨hc2, hf2⟩ := ih (feed h s m.bytes) hf1.escState hf1.pBuf (hf1.isWrapping.trans hw)
      (by rw [hc1]; exact hr1.1) (by rw [hc1]; exact hr1.2) hrest
    show (feed h s (m.bytes ++ movesBytes ms)).col = _ ∧ IdleFrame s (feed h s (m.bytes ++ _))
    rw [feed_append]
    refine ⟨?_, hf1.trans hf2⟩
    rw [hc2, hc1]
    rfl

/-- `ESC [ 6 n` in an idle state where the soft-wrap block cannot fire: the column
stays and the response reports it. -/
theorem feed_cursor_report (h : Header) (s : AnsiEscapeProcessor)
    (hidle : s.escState = .escStateNone) (hp : s.pBuf = 1) (hM : 2 ≤ h.MAXESCLEN)
    (h0 : 0 ≤ s.col) (h71 : s.col ≤ 71) (hnw : ¬ (s.isWrapping = true ∧ s.col = 71)) :
    (feed h s [27, 91, 54, 110]).col = s.col ∧
      getResponse (feed h s [27, 91, 54, 110]) =
        some ([27, 91, 48, 59] ++ decimal s.col.toNat ++ [82]) := by
  have hds : ∀ x ∈ [54], isdigit x = true := by decide
  have hlen : ([91, 54] : List Nat).length ≤ h.MAXESCLEN := by
    simp only [List.length_cons, List.length_nil]; omega
  have hN := getN_csi_digits s [54] 110 0 hds (by decide)
  have h6 : (if ([54] : List Nat) = [] then (0 : Int)
      else min (digitsValue [54] : Int) 2147483647) = 6 := by decide
  rw [h6] at hN
  have hT : processSequence h (closeState s [91, 54] 110) =
      sendDSR (writeResponse (closeState s [91, 54] 110) .null) 6 := by
    rw [processSequence_csi h s [54] 110 (by decide), csiSwitch_status, hN]
  constructor
  · have hf := feed_escape_result h s [91, 54] 110 hidle hp (by decide) hlen
      (Or.inl (by decide)) (by decide) (by decide) (by decide) _ hT
      ((sendDSR_quiet _ 6).escState.trans rfl)
      (by rw [sendDSR_isWrapping, (sendDSR_quiet _ 6).col]; exact hnw)
    have hf2 : feed h s [27, 91, 54, 110] = _ := hf
    rw [hf2]
    show replay (sendDSR _ 6).col (output (sendDSR _ 6)) = s.col
    rw [sendDSR_col, (sendDSR_quiet _ 6).output]
    simp [output, window, writeResponse, closeState, openState, storedMem, replay]
  · have hg := getResponse_feed_escape h s [91, 54] 110 hidle hp (by decide) hlen
      (Or.inl (by decide))
    rw [hT] at hg
    have hfeed : getResponse (feed h s [27, 91, 54, 110]) = _ := hg
    rw [hfeed]
    exact getResponse_sendDSR_six _ h0 h71

theorem foldl_apply_range (ms : List Move) (c : Int) (h0 : 0 ≤ c) (h71 : c ≤ 71) :
    0 ≤ ms.foldl Move.apply c ∧ ms.foldl Move.apply c ≤ 71 := by
  induction ms generalizing c with
  | nil => exact ⟨h0, h71⟩
  | cons m ms ih => exact ih _ (Move.apply_range c m).1 (Move.apply_range c m).2

/-- C11: on a freshly constructed processor, after a string of printable bytes, any
list of moves `ESC [ <N> C`, `ESC [ <N> D`, `ESC [ <N> G` with `N ≤ 9999` in decimal,
and then `ESC [ 6 n`: `column()` and the column field of the response equal the fold
of the moves over the starting column with `c + N`, `c - N` and `N`, each clamped to
`[0, 71]`.  (The header's cap must let `[` and four digits through.) -/
theorem C11_move_report_round_trip (h : Header) (mem : AnsiEscapeProcessor)
    (ps : List Nat) (ms : List Move) (hM : 5 ≤ h.MAXESCLEN)
    (hps : ∀ c ∈ ps, 32 ≤ c ∧ c ≤ 126) (hms : ∀ m ∈ ms, m.param ≤ 9999) :
    column (feed h (construct mem) (ps ++ movesBytes ms ++ [27, 91, 54, 110])) =
      ms.foldl Move.apply (min (ps.length : Int) 71) ∧
    getResponse (feed h (construct mem) (ps ++ movesBytes ms ++ [27, 91, 54, 110])) =
      some ([27, 91, 48, 59] ++
        decimal (ms.foldl Move.apply (min (ps.length : Int) 71)).toNat ++ [82]) := by
  have hpe : ∀ c ∈ ps, c ≠ 27 := fun c hc => by have := hps c hc; omega
  have hf1 := (feed_plain_nowrap h ps (construct mem) rfl rfl rfl hpe).1
  have hw1 : (feed h (construct mem) ps).isWrapping = false := hf1.isWrapping
  have hc1 : (feed h (construct mem) ps).col = min (ps.length : Int) 71 := by
    rw [feed_printable_col h ps (construct mem) rfl rfl rfl hps (show (0 : Int) ≤ 71 by decide)]
    show min (0 + (ps.length : Int)) 71 = _
    rw [zero_add]
  obtain ⟨hc2, hf2⟩ := feed_moves h ms (feed h (construct mem) ps) hf1.escState hf1.pBuf hw1
    (by rw [hc1]; omega) (by rw [hc1]; omega) hM hms
  rw [hc1] at hc2
  have hrange := foldl_apply_range ms (min (ps.length : Int) 71) (by omega) (by omega)
  have hw2 := hf2.isWrapping.trans hw1
  obtain ⟨hc3, hg3⟩ := feed_cursor_report h (feed h (feed h (construct mem) ps) (movesBytes ms))
    hf2.escState hf2.pBuf (by omega) (by rw [hc2]; exact hrange.1) (by rw [hc2]; exact hrange.2)
    (by simp [hw2])
  rw [hc2] at hc3 hg3
  simp only [feed_append, column]
  exact ⟨hc3, hg3⟩

/-- Witness of C11: "abc", then to column 8, back 3, forward 1, then the query. -/
theorem C11_move_report_round_trip_witness :
    column (feed sampleHeader (construct blankMemory)
      ([97, 98, 99] ++ movesBytes [Move.absolute 8, Move.backward 3, Move.forward 1]
        ++ [27, 91, 54, 110])) = 6 ∧
    getResponse (feed sampleHeader (construct blankMemory)
      ([97, 98, 99] ++ movesBytes [Move.absolute 8, Move.backward 3, Move.forward 1]
        ++ [27, 91, 54, 110])) = some [27, 91, 48, 59, 54, 82] :=
  C11_move_report_round_trip sampleHeader blankMemory [97, 98, 99]
    [Move.absolute 8, Move.backward 3, Move.forward 1] (by decide) (by decide) (by decide)

/-- `ESC [ <digits> G` whose clamped target is the present column: nothing is sent
and the column stays. -/
theorem feed_csi_absolute_again (h : Header) (s : AnsiEscapeProcessor) (ds : List Nat)
    (hidle : s.escState = .escStateNone) (hp : s.pBuf = 1)
    (hds : ∀ x ∈ ds, isdigit x = true) (hlen : ds.length + 1 ≤ h.MAXESCLEN)
    (h0 : 0 ≤ s.col) (h71 : s.col ≤ 71) (hnw : ¬ (s.isWrapping = true ∧ s.col = 71))
    (hsame : clampColumn (if ds = [] then 0 else min (digitsValue ds : Int) 2147483647)
      = s.col) :
    outLen (feed h s (27 :: 91 :: (ds ++ [71]))) = 0 ∧
    sent h s (27 :: 91 :: (ds ++ [71])) = [] ∧
    (feed h s (27 :: 91 :: (ds ++ [71]))).col = s.col := by
  obtain ⟨hacc, hq⟩ := accumulatesFrom_csi_digits ds hds
  have hterm : terminates (91 :: ds) 71 = true := by simp [terminates, isAlpha]
  have hlen2 : (91 :: ds).length ≤ h.MAXESCLEN := by simpa using hlen
  have hT := processSequence_csi h s ds 71 hq
  rw [csiSwitch_absolute, getN_csi_digits s ds 71 0 hds (by decide),
    (moveToColumn_output (writeResponse (closeState s (91 :: ds) 71) .null) _ h0 h71).1 hsame]
    at hT
  have hf := feed_escape_result h s (91 :: ds) 71 hidle hp hacc hlen2 (Or.inl hterm)
    (by decide) (by decide) (by decide) _ hT rfl hnw
  have hs := sent_escape h s (91 :: ds) 71 hidle hp hacc hlen2
  have hf2 : feed h s (27 :: 91 :: (ds ++ [71])) = _ := hf
  have hs2 : sent h s (27 :: 91 :: (ds ++ [71])) = output (feed h s (27 :: 91 :: (ds ++ [71]))) :=
    hs
  rw [hs2, hf2]
  refine ⟨?_, ?_, ?_⟩
  · simp [outLen, writeResponse, closeState, openState, storedMem]
  · simp [output, window, writeResponse, closeState, openState, storedMem]
  · simp [output, window, writeResponse, closeState, openState, storedMem, replay]

/-- C17: from a reachable idle state with auto-wrap off, for `N` in `0..9999`, when
`ESC [ <N> G` is fed twice in succession, the `update` call for the terminator of the
second sequence returns a buffer of length 0 and leaves the column unchanged: the
second sequence sends nothing.  (The header's cap must let `[` and four digits
through.) -/
theorem C17_absolute_move_idempotent (h : Header) (s : AnsiEscapeProcessor) (N : Nat)
    (hr : Reachable h s) (hidle : s.escState = .escStateNone) (hw : s.isWrapping = false)
    (hM : 5 ≤ h.MAXESCLEN) (hN : N ≤ 9999) :
    outLen (feed h (feed h s ([27, 91] ++ decimal N ++ [71])) ([27, 91] ++ decimal N ++ [71]))
      = 0 ∧
    column (feed h (feed h s ([27, 91] ++ decimal N ++ [71])) ([27, 91] ++ decimal N ++ [71]))
      = column (feed h s ([27, 91] ++ decimal N ++ [71])) ∧
    sent h (feed h s ([27, 91] ++ decimal N ++ [71])) ([27, 91] ++ decimal N ++ [71]) = [] := by
  have hp := reachable_idle_pBuf h s hr hidle
  obtain ⟨h0, h71⟩ := reachable_col_range h s hr
  obtain ⟨hds, hne, hv, -⟩ := decimal_spec N
  have hl4 := decimal_length_le_four N hN
  obtain ⟨hc1, hf1⟩ := feed_csi_absolute h s (decimal N) hidle hp hds (by omega) h0 h71
    (by simp [hw])
  have hw1 := hf1.isWrapping.trans hw
  have hr1 := clampColumn_range (if decimal N = [] then 0
    else min (digitsValue (decimal N) : Int) 2147483647)
  obtain ⟨ho, hs, hc⟩ := feed_csi_absolute_again h _ (decimal N) hf1.escState hf1.pBuf hds
    (by omega) (by rw [hc1]; exact hr1.1) (by rw [hc1]; exact hr1.2) (by simp [hw1]) hc1.symm
  simp only [List.cons_append, List.nil_append, column]
  exact ⟨ho, hc, hs⟩

/-- Witness of C17: `ESC [ 8 G` twice after "abc". -/
theorem C17_absolute_move_idempotent_witness :
    sent sampleHeader
      (feed sampleHeader (feed sampleHeader (construct blankMemory) [97, 98, 99])
        ([27, 91] ++ decimal 8 ++ [71])) ([27, 91] ++ decimal 8 ++ [71]) = [] :=
  (C17_absolute_move_idempotent sampleHeader
    (feed sampleHeader (construct blankMemory) [97, 98, 99]) 8
    (Reachable.update _ 99 (Reachable.update _ 98 (Reachable.update _ 97
      (Reachable.construct blankMemory) (by decide)) (by decide)) (by decide))
    rfl rfl (by decide) (by decide)).2.2

/-! ### The shape of the dispatcher's result and of reachable states -/

theorem simpleSwitch_shape (W : AnsiEscapeProcessor) (last : Nat) :
    Quiet W (simpleSwitch W last) ∨ simpleSwitch W last = writeOutput W [10] 1 ∨
      (∃ n, simpleSwitch W last = moveToColumn W n) := by
  unfold simpleSwitch
  split_ifs
  · right; left; rfl
  · right; right; exact ⟨_, rfl⟩
  · right; right; exact ⟨_, rfl⟩
  · left; exact ⟨rfl, rfl, rfl, rfl, rfl⟩
  · right; right; exact ⟨_, rfl⟩
  · left; exact Quiet.quiet_refl W

theorem csiSwitch_shape (h : Header) (W : AnsiEscapeProcessor) (last : Nat) :
    Quiet W (csiSwitch h W last) ∨ (∃ n, csiSwitch h W last = moveToColumn W n) := by
  unfold csiSwitch
  split_ifs
  · left; exact Quiet.quiet_refl W
  · right; exact ⟨_, rfl⟩
  · right; exact ⟨_, rfl⟩
  · right; exact ⟨_, rfl⟩
  · left; exact Quiet.quiet_refl W
  · left; exact Quiet.quiet_refl W
  · left; exact sendDA_quiet h W _
  · left; exact sendDSR_quiet W _
  · left; exact Quiet.quiet_refl W

theorem csiQuestionSwitch_shape (W : AnsiEscapeProcessor) (last : Nat) :
    Quiet W (csiQuestionSwitch W last) ∨ csiQuestionSwitch W last = resetTerminal W := by
  unfold csiQuestionSwitch
  split_ifs
  · left; exact setMode_quiet W _
  · left; exact resetMode_quiet W _
  · left; exact sendDSR_quiet W _
  · right; rfl
  · left; exact Quiet.quiet_refl W

/-- What `processSequence` can do to the state it is given, `W` being that state
with the response cleared: leave phase, count, column and buffer alone; write a
line feed; call `moveToColumn`; or perform the soft reset. -/
theorem processSequence_shape (h : Header) (s : AnsiEscapeProcessor) :
    Quiet (writeResponse s .null) (processSequence h s) ∨
    processSequence h s = writeOutput (writeResponse s .null) [10] 1 ∨
    (∃ n, processSequence h s = moveToColumn (writeResponse s .null) n) ∨
    processSequence h s = resetTerminal (writeResponse s .null) := by
  unfold processSequence
  simp only []
  split_ifs
  · rcases simpleSwitch_shape (writeResponse s .null)
      ((writeResponse s .null).outbuf (writeResponse s .null).pBuf) with hq | hq | hq
    · left; exact hq
    · right; left; exact hq
    · right; right; left; exact hq
  · left; exact readAPC_quiet h _
  · rcases csiSwitch_shape h (writeResponse s .null)
      ((writeResponse s .null).outbuf (writeResponse s .null).pBuf) with hq | hq
    · left; exact hq
    · right; right; left; exact hq
  · rcases csiQuestionSwitch_shape (writeResponse s .null)
      ((writeResponse s .null).outbuf (writeResponse s .null).pBuf) with hq | hq
    · left; exact hq
    · right; right; right; exact hq
  · left; exact Quiet.quiet_refl _

theorem processSequence_escState (h : Header) (s : AnsiEscapeProcessor)
    (hs : s.escState = .escStateNone) : (processSequence h s).escState = .escStateNone := by
  rcases processSequence_shape h s with hq | hq | ⟨n, hq⟩ | hq
  · rw [hq.escState]; exact hs
  · rw [hq]; exact hs
  · rw [hq, moveToColumn_frame]; exact hs
  · rw [hq]; rfl

theorem processSequence_nEscChars (h : Header) (s : AnsiEscapeProcessor) :
    (processSequence h s).nEscChars = s.nEscChars ∨ (processSequence h s).nEscChars = 0 := by
  rcases processSequence_shape h s with hq | hq | ⟨n, hq⟩ | hq
  · left; rw [hq.nEscChars]; rfl
  · left; rw [hq]; rfl
  · left; rw [hq, moveToColumn_frame]; rfl
  · right; rw [hq]; rfl

/-- The length prefix `processSequence` leaves, given a buffer of length 0 and a
column in range. -/
theorem processSequence_outLen (h : Header) (s : AnsiEscapeProcessor)
    (h0 : 0 ≤ s.col) (h71 : s.col ≤ 71) (hlen : s.outbuf 0 = 0) :
    outLen (processSequence h s) = 0 ∨ outLen (processSequence h s) = 1 ∨
    outLen (processSequence h s) = 2 ∨
    (∃ n : Int, clampColumn n ≠ s.col ∧
      outLen (processSequence h s) = outLen (moveToColumn s n)) := by
  rcases processSequence_shape h s with hq | hq | ⟨n, hq⟩ | hq
  · left; rw [hq.outLen]; exact hlen
  · right; left; rw [hq]; rfl
  · by_cases hn : clampColumn n = s.col
    · left
      rw [hq, (moveToColumn_output (writeResponse s .null) n h0 h71).1 hn]
      exact hlen
    · right; right; right
      refine ⟨n, hn, ?_⟩
      rw [hq]
      obtain ⟨-, hl, hg⟩ := moveToColumn_output (writeResponse s .null) n h0 h71
      obtain ⟨-, hl2, hg2⟩ := moveToColumn_output s n h0 h71
      rcases lt_or_gt_of_ne hn with hlt | hgt
      · rw [(hg hlt).1, (hg2 hlt).1]
      · rw [(hl hgt).1, (hl2 hgt).1]
        rfl
  · right; right; left; rw [hq]; rfl

/-- The length `moveToColumn` writes is at most 71. -/
theorem moveToColumn_outLen_le (s : AnsiEscapeProcessor) (n : Int)
    (h0 : 0 ≤ s.col) (h71 : s.col ≤ 71) (hn : clampColumn n ≠ s.col) :
    outLen (moveToColumn s n) ≤ 71 := by
  obtain ⟨hc0, hc1⟩ := clampColumn_range n
  obtain ⟨-, hl, hg⟩ := moveToColumn_output s n h0 h71
  rcases lt_or_gt_of_ne hn with hlt | hgt
  · rw [(hg hlt).1]; omega
  · rw [(hl hgt).1]; omega

theorem accumulatesFrom_snoc (pre bs : List Nat) (c : Nat) :
    accumulatesFrom pre (bs ++ [c]) = (accumulatesFrom pre bs && !terminates (pre ++ bs) c) := by
  induction bs generalizing pre with
  | nil => simp [accumulatesFrom]
  | cons b rest ih =>
    have e : pre ++ b :: rest = (pre ++ [b]) ++ rest := by simp
    show (!terminates pre b && accumulatesFrom (pre ++ [b]) (rest ++ [c])) =
      ((!terminates pre b && accumulatesFrom (pre ++ [b]) rest) &&
        !terminates (pre ++ b :: rest) c)
    rw [ih (pre ++ [b]), e, Bool.and_assoc]

theorem reachable_feed (h : Header) (cs : List Nat) (s : AnsiEscapeProcessor)
    (hr : Reachable h s) (hcs : ∀ c ∈ cs, c < 256) : Reachable h (feed h s cs) := by
  induction cs generalizing s with
  | nil => exact hr
  | cons c cs ih =>
    exact ih (update h s c) (Reachable.update s c hr (hcs c (List.mem_cons_self _ _)))
      (fun d hd => hcs d (List.mem_cons_of_mem _ hd))

/-- Every reachable state is idle with the buffer pointer rewound, or is the state
an idle reachable state gets into by ESC and escape bytes that do not terminate. -/
theorem reachable_shape (h : Header) (s : AnsiEscapeProcessor) (hr : Reachable h s) :
    (s.escState = .escStateNone ∧ s.pBuf = 1) ∨
    ∃ s0 bs, Reachable h s0 ∧ s0.escState = .escStateNone ∧ s0.pBuf = 1 ∧
      accumulatesFrom [] bs = true ∧ bs.length ≤ h.MAXESCLEN ∧ s = accumState s0 bs := by
  induction hr with
  | construct mem => left; exact ⟨rfl, rfl⟩
  | update s c hr hc ih =>
    rcases ih with ⟨hidle, hp⟩ | ⟨s0, bs, hr0, hidle0, hp0, hacc, hlen, hs⟩
    · by_cases hc27 : c = 27
      · right
        refine ⟨s, [], hr, hidle, hp, rfl, Nat.zero_le _, ?_⟩
        rw [hc27, update_idle_esc h s hidle hp]
      · left
        have hf := update_idle_frame h s c hidle hp hc27
        exact ⟨hf.escState, hf.pBuf⟩
    · rw [hs]
      by_cases hterm : terminates bs c = true ∨ h.MAXESCLEN < bs.length + 1
      · left
        have hn : (update h (accumState s0 bs) c).escState = .escStateNone := by
          rw [update_accum_final h s0 bs c hterm, updateFromOutput_eq]
          have hT := processSequence_escState h (closeState s0 bs c) rfl
          generalize processSequence h (closeState s0 bs c) = T at hT
          unfold updateWrap
          simp only [classify, hT]
          split_ifs <;> rfl
        exact ⟨hn, update_idle_pBuf h _ c hn⟩
      · right
        have ht : terminates bs c = false := by
          cases hb : terminates bs c
          · rfl
          · exact absurd (Or.inl hb) hterm
        have hl : bs.length + 1 ≤ h.MAXESCLEN := by
          by_contra hx
          exact hterm (Or.inr (by omega))
        refine ⟨s0, bs ++ [c], hr0, hidle0, hp0, ?_, by simpa using hl, ?_⟩
        · rw [accumulatesFrom_snoc, hacc, List.nil_append, ht]
          rfl
        · exact update_accum_step h s0 bs c ht hl

/-- The call of `update` that ends an escape sequence: phase, byte count, length
prefix and response of the state it returns, in terms of the dispatcher's result. -/
theorem update_close (h : Header) (s : AnsiEscapeProcessor) (bs : List Nat) (c : Nat)
    (hterm : terminates bs c = true ∨ h.MAXESCLEN < bs.length + 1) :
    (update h (accumState s bs) c).escState = .escStateNone ∧
    (update h (accumState s bs) c).nEscChars =
      (processSequence h (closeState s bs c)).nEscChars ∧
    outLen (update h (accumState s bs) c) =
      (if (processSequence h (closeState s bs c)).isWrapping = true ∧
          (processSequence h (closeState s bs c)).col = 71 then 3
        else outLen (processSequence h (closeState s bs c))) ∧
    getResponse (update h (accumState s bs) c) =
      getResponse (processSequence h (closeState s bs c)) := by
  rw [update_accum_final h s bs c hterm, updateFromOutput_eq]
  have hT := processSequence_escState h (closeState s bs c) rfl
  generalize processSequence h (closeState s bs c) = T at hT
  by_cases hfire : T.isWrapping = true ∧ T.col = 71
  · have hW : updateWrap (classify T c) c =
        writeOutput { classify T c with pBuf := 1 } [13, 10, c] 3 := by
      have hc2 : T.col = MAX_COLUMNS := hfire.2
      unfold updateWrap
      simp [classify, hT, hfire.1, hc2]
    rw [hW, if_pos hfire]
    exact ⟨hT, rfl, rfl, rfl⟩
  · have hW : updateWrap (classify T c) c = { classify T c with pBuf := 1 } := by
      unfold updateWrap
      by_cases hw : T.isWrapping = true
      · have hc2 : ¬ T.col = MAX_COLUMNS := fun hx => hfire ⟨hw, hx⟩
        simp [classify, hT, hw, hc2]
      · simp [classify, hT, hw]
    rw [hW, if_neg hfire]
    exact ⟨hT, rfl, rfl, rfl⟩

/-! ## Claims C15, C18 and C20 -/

theorem csiSwitch_digit_one (h : Header) (W : AnsiEscapeProcessor) : csiSwitch h W 49 = W := rfl

/-- An oversized sequence: ESC, `[` and digits up to the cap, then one digit more.
The last call force-terminates it and leaves the count one above the cap. -/
theorem oversized_sequence_count (h : Header) (s : AnsiEscapeProcessor) (k : Nat)
    (hidle : s.escState = .escStateNone) (hp : s.pBuf = 1) (hk : k + 1 = h.MAXESCLEN) :
    (feed h s (27 :: (91 :: List.replicate k 49 ++ [49]))).escState = .escStateNone ∧
    (feed h s (27 :: (91 :: List.replicate k 49 ++ [49]))).nEscChars = h.MAXESCLEN + 1 := by
  have hna : ∀ b ∈ List.replicate k 49, isAlpha b = false := by
    intro b hb
    rw [List.eq_of_mem_replicate hb]
    decide
  have hacc : accumulatesFrom [] (91 :: List.replicate k 49) = true := by
    have := accumulatesFrom_csi (List.replicate k 49) [91] rfl hna
    simpa [accumulatesFrom, terminates, isAlpha, isdigit] using this
  have hq : (List.replicate k 49).head? ≠ some 63 := by
    rcases k with _ | k
    · simp
    · simp [List.replicate_succ]
  have hlen : (91 :: List.replicate k 49).length ≤ h.MAXESCLEN := by
    simp only [List.length_cons, List.length_replicate]; omega
  have hover : h.MAXESCLEN < (91 :: List.replicate k 49).length + 1 := by
    simp only [List.length_cons, List.length_replicate]; omega
  have hf : feed h s (27 :: (91 :: List.replicate k 49 ++ [49])) =
      update h (accumState s (91 :: List.replicate k 49)) 49 := by
    show feed h (update h s 27) ((91 :: List.replicate k 49) ++ [49]) = _
    rw [update_idle_esc h s hidle hp, feed_append,
      feed_accum h s (91 :: List.replicate k 49) [] hacc (by simpa using hlen)]
    rfl
  obtain ⟨h1, h2, -, -⟩ := update_close h s (91 :: List.replicate k 49) 49 (Or.inr hover)
  rw [processSequence_csi h s (List.replicate k 49) 49 hq, csiSwitch_digit_one] at h2
  rw [hf]
  refine ⟨h1, h2.trans ?_⟩
  show (91 :: List.replicate k 49).length + 1 = h.MAXESCLEN + 1
  simp only [List.length_cons, List.length_replicate]
  omega

/-- C15 as stated fails: with the cap at 32, after ESC, `[` and 32 digits the
processor is reachable, idle, and its escape byte count is 33. -/
theorem C15_count_exceeds_cap :
    Reachable sampleHeader
      (feed sampleHeader (construct blankMemory) (27 :: (91 :: List.replicate 31 49 ++ [49]))) ∧
    sampleHeader.MAXESCLEN = 32 ∧
    (feed sampleHeader (construct blankMemory)
      (27 :: (91 :: List.replicate 31 49 ++ [49]))).nEscChars = 33 :=
  ⟨reachable_feed sampleHeader _ _ (Reachable.construct blankMemory) (by decide), rfl,
    (oversized_sequence_count sampleHeader (construct blankMemory) 31 rfl rfl rfl).2⟩

/-- C15, amended: in every reachable state the escape byte count is at most
`MAXESCLEN + 1`, and at most `MAXESCLEN` while the processor is accumulating an
escape sequence. -/
theorem C15_count_bounded (h : Header) (s : AnsiEscapeProcessor) (hr : Reachable h s) :
    s.nEscChars ≤ h.MAXESCLEN + 1 ∧
      (s.escState = .escStateEsc → s.nEscChars ≤ h.MAXESCLEN) := by
  constructor
  · induction hr with
    | construct mem => exact Nat.zero_le _
    | update s c hr hc ih =>
      rcases reachable_shape h s hr with ⟨hidle, hp⟩ | ⟨s0, bs, -, -, -, -, hlen, hs⟩
      · by_cases hc27 : c = 27
        · rw [hc27, update_idle_esc h s hidle hp]
          exact Nat.zero_le _
        · by_cases hw : s.isWrapping = true ∧ s.col = 71
          · rw [update_idle_wrap h s c hidle hp hc27 hw.1 hw.2]
            exact ih
          · rw [update_idle_nowrap h s c hidle hp hc27 hw]
            exact ih
      · rw [hs]
        by_cases hterm : terminates bs c = true ∨ h.MAXESCLEN < bs.length + 1
        · obtain ⟨-, h2, -, -⟩ := update_close h s0 bs c hterm
          rw [h2]
          rcases processSequence_nEscChars h (closeState s0 bs c) with hn | hn
          · rw [hn]
            show bs.length + 1 ≤ h.MAXESCLEN + 1
            omega
          · rw [hn]
            exact Nat.zero_le _
        · have ht : terminates bs c = false := by
            cases hb : terminates bs c
            · rfl
            · exact absurd (Or.inl hb) hterm
          have hl : bs.length + 1 ≤ h.MAXESCLEN := by
            by_contra hx
            exact hterm (Or.inr (by omega))
          rw [update_accum_step h s0 bs c ht hl]
          show (bs ++ [c]).length ≤ h.MAXESCLEN + 1
          simp only [List.length_append, List.length_singleton]
          omega
  · intro hesc
    rcases reachable_shape h s hr with ⟨hidle, -⟩ | ⟨s0, bs, -, -, -, -, hlen, hs⟩
    · rw [hidle] at hesc
      exact absurd hesc (by decide)
    · rw [hs]
      exact hlen

/-- Witness of the amended C15 on the oversized sequence itself. -/
theorem C15_count_bounded_witness :
    (feed sampleHeader (construct blankMemory)
      (27 :: (91 :: List.replicate 31 49 ++ [49]))).nEscChars ≤ sampleHeader.MAXESCLEN + 1 :=
  (C15_count_bounded sampleHeader _
    (reachable_feed sampleHeader _ _ (Reachable.construct blankMemory) (by decide))).1

/-- The first escape byte of an accumulating state is stored at `outbuf[2]`, and the
terminator test reads as the rule on the byte count and that byte. -/
theorem terminates_rule (s0 : AnsiEscapeProcessor) (bs : List Nat) (c : Nat) :
    terminates bs c = true ↔
      ((accumState s0 bs).nEscChars + 1 = 1 ∧ (isAlpha c = true ∨ isdigit c = true)) ∨
      (1 < (accumState s0 bs).nEscChars + 1 ∧ (accumState s0 bs).outbuf 2 = 95 ∧ c = 156) ∨
      (1 < (accumState s0 bs).nEscChars + 1 ∧ (accumState s0 bs).outbuf 2 ≠ 95 ∧
        isAlpha c = true) := by
  rcases bs with _ | ⟨b, rest⟩
  · simp [terminates, accumState]
  · have h2 : (accumState s0 (b :: rest)).outbuf 2 = b := by
      simp [accumState, storedMem]
    rw [h2]
    by_cases hb : b = 95
    · simp [terminates, accumState, hb]
    · simp [terminates, accumState, hb]

/-- C20: in a reachable state of the accumulating phase, with `k` the byte count
after this byte: if `k ≤ MAXESCLEN`, `update(c)` returns the phase to idle exactly
when `k = 1` and `c` is an ASCII letter or digit, or `k > 1`, the first escape byte
(stored at `outbuf[2]`) is `_` and `c = 0x9C`, or `k > 1`, the first escape byte is
not `_` and `c` is an ASCII letter; if `k > MAXESCLEN` the phase returns to idle for
every `c`. -/
theorem C20_terminator_rule (h : Header) (s : AnsiEscapeProcessor) (c : Nat)
    (hr : Reachable h s) (hesc : s.escState = .escStateEsc) :
    (s.nEscChars + 1 ≤ h.MAXESCLEN →
      ((update h s c).escState = .escStateNone ↔
        (s.nEscChars + 1 = 1 ∧ (isAlpha c = true ∨ isdigit c = true)) ∨
        (1 < s.nEscChars + 1 ∧ s.outbuf 2 = 95 ∧ c = 156) ∨
        (1 < s.nEscChars + 1 ∧ s.outbuf 2 ≠ 95 ∧ isAlpha c = true))) ∧
    (h.MAXESCLEN < s.nEscChars + 1 → (update h s c).escState = .escStateNone) := by
  rcases reachable_shape h s hr with ⟨hidle, -⟩ | ⟨s0, bs, -, -, -, -, -, hs⟩
  · rw [hidle] at hesc
    exact absurd hesc (by decide)
  · rw [hs]
    constructor
    · intro hk
      have hk2 : bs.length + 1 ≤ h.MAXESCLEN := hk
      rw [← terminates_rule s0 bs c]
      constructor
      · intro hnone
        by_contra hnt
        have ht : terminates bs c = false := by
          cases hb : terminates bs c
          · rfl
          · exact absurd hb hnt
        rw [update_accum_step h s0 bs c ht hk2] at hnone
        have hx : EscState.escStateEsc = EscState.escStateNone := hnone
        cases hx
      · intro ht
        exact (update_close h s0 bs c (Or.inl ht)).1
    · intro hk
      have hk2 : h.MAXESCLEN < bs.length + 1 := hk
      exact (update_close h s0 bs c (Or.inr hk2)).1

/-- Witness of C20: after ESC and `[`, the letter G ends the sequence. -/
theorem C20_terminator_rule_witness :
    (update sampleHeader (feed sampleHeader (construct blankMemory) [27, 91]) 71).escState
      = .escStateNone :=
  ((C20_terminator_rule sampleHeader (feed sampleHeader (construct blankMemory) [27, 91]) 71
    (Reachable.update _ 91 (Reachable.update _ 27 (Reachable.construct blankMemory)
      (by decide)) (by decide)) rfl).1 (by decide)).2 (Or.inr (Or.inr (by decide)))

theorem moveToColumn_outLen_congr (s t : AnsiEscapeProcessor) (n : Int)
    (hcol : t.col = s.col) (h0 : 0 ≤ s.col) (h71 : s.col ≤ 71) (hn : clampColumn n ≠ s.col) :
    outLen (moveToColumn t n) = outLen (moveToColumn s n) := by
  obtain ⟨-, hl, hg⟩ := moveToColumn_output s n h0 h71
  obtain ⟨-, hl2, hg2⟩ := moveToColumn_output t n (by rw [hcol]; exact h0)
    (by rw [hcol]; exact h71)
  rcases lt_or_gt_of_ne hn with hlt | hgt
  · rw [(hg hlt).1, (hg2 (by rw [hcol]; exact hlt)).1]
  · rw [(hl hgt).1, (hl2 (by rw [hcol]; exact hgt)).1, hcol]

/-- C18: for every reachable state and every input byte, the length prefix of the
buffer `update` returns is at most 71, and it is 0, 1, 2, 3 or a length that
`moveToColumn` writes from the present column. -/
theorem C18_bounded_output (h : Header) (s : AnsiEscapeProcessor) (c : Nat)
    (hr : Reachable h s) :
    outLen (update h s c) ≤ 71 ∧
    (outLen (update h s c) = 0 ∨ outLen (update h s c) = 1 ∨ outLen (update h s c) = 2 ∨
      outLen (update h s c) = 3 ∨
      ∃ n : Int, min (max n 0) 71 ≠ column s ∧
        outLen (update h s c) = outLen (moveToColumn s n)) := by
  have key : outLen (update h s c) = 0 ∨ outLen (update h s c) = 1 ∨
      outLen (update h s c) = 2 ∨ outLen (update h s c) = 3 ∨
      ∃ n : Int, clampColumn n ≠ s.col ∧
        outLen (update h s c) = outLen (moveToColumn s n) := by
    rcases reachable_shape h s hr with ⟨hidle, hp⟩ | ⟨s0, bs, hr0, -, -, -, -, hs⟩
    · by_cases hc27 : c = 27
      · left
        rw [hc27, update_idle_esc h s hidle hp]
        simp [outLen, accumState, storedMem]
      · by_cases hw : s.isWrapping = true ∧ s.col = 71
        · right; right; right; left
          exact (output_update_idle_wrap h s c hidle hp hc27 hw.1 hw.2).1
        · right; left
          exact (output_update_idle_nowrap h s c hidle hp hc27 hw).1
    · obtain ⟨h0, h71⟩ := reachable_col_range h s0 hr0
      rw [hs]
      by_cases hterm : terminates bs c = true ∨ h.MAXESCLEN < bs.length + 1
      · obtain ⟨-, -, h3, -⟩ := update_close h s0 bs c hterm
        rw [h3]
        by_cases hfire : (processSequence h (closeState s0 bs c)).isWrapping = true ∧
            (processSequence h (closeState s0 bs c)).col = 71
        · rw [if_pos hfire]
          right; right; right; left; rfl
        · rw [if_neg hfire]
          rcases processSequence_outLen h (closeState s0 bs c) h0 h71
            (by simp [closeState, openState, storedMem]) with hq | hq | hq | ⟨n, hn, hq⟩
          · left; exact hq
          · right; left; exact hq
          · right; right; left; exact hq
          · right; right; right; right
            refine ⟨n, hn, ?_⟩
            rw [hq]
            exact moveToColumn_outLen_congr (accumState s0 bs) (closeState s0 bs c) n rfl h0 h71 hn
      · have ht : terminates bs c = false := by
          cases hb : terminates bs c
          · rfl
          · exact absurd (Or.inl hb) hterm
        have hl : bs.length + 1 ≤ h.MAXESCLEN := by
          by_contra hx
          exact hterm (Or.inr (by omega))
        left
        rw [update_accum_step h s0 bs c ht hl]
        simp [outLen, accumState, storedMem]
  obtain ⟨h0, h71⟩ := reachable_col_range h s hr
  refine ⟨?_, key⟩
  rcases key with hq | hq | hq | hq | ⟨n, hn, hq⟩
  · omega
  · omega
  · omega
  · omega
  · rw [hq]
    exact moveToColumn_outLen_le s n h0 h71 hn

/-- Witness of C18: the buffer returned for the G of `ESC [ 8 G` after "abc". -/
theorem C18_bounded_output_witness :
    outLen (update sampleHeader
      (feed sampleHeader (construct blankMemory) [97, 98, 99, 27, 91, 56]) 71) ≤ 71 :=
  (C18_bounded_output sampleHeader
    (feed sampleHeader (construct blankMemory) [97, 98, 99, 27, 91, 56]) 71
    (reachable_feed sampleHeader _ _ (Reachable.construct blankMemory) (by decide))).1

/-! ### The pending response -/

theorem getResponse_writeOutput (s : AnsiEscapeProcessor) (out : List Nat) (n : Nat) :
    getResponse (writeOutput s out n) = getResponse s := rfl

theorem getResponse_moveToColumn (s : AnsiEscapeProcessor) (n : Int) :
    getResponse (moveToColumn s n) = getResponse s := by
  rw [moveToColumn_frame]
  rfl

theorem getResponse_apcCommand (h : Header) (s : AnsiEscapeProcessor) (b : Nat) :
    getResponse (apcCommand h s b) = getResponse s := by
  unfold apcCommand
  split_ifs <;> rfl

theorem getResponse_readAPCLoop (h : Header) (k p : Nat) (s : AnsiEscapeProcessor) :
    getResponse (readAPCLoop h k p s) = getResponse s := by
  induction k generalizing p s with
  | zero => rfl
  | succ k ih =>
    unfold readAPCLoop
    split_ifs
    · rfl
    · rw [ih, getResponse_apcCommand]

theorem getResponse_setMode (s : AnsiEscapeProcessor) (n : Int) :
    getResponse (setMode s n) = getResponse s := by
  unfold setMode
  split_ifs <;> rfl

theorem getResponse_resetMode (s : AnsiEscapeProcessor) (n : Int) :
    getResponse (resetMode s n) = getResponse s := by
  unfold resetMode
  split_ifs <;> rfl

theorem getResponse_resetTerminal (s : AnsiEscapeProcessor) :
    getResponse (resetTerminal s) = getResponse s := rfl

theorem getResponse_sendDA (h : Header) (s : AnsiEscapeProcessor) (n : Int) (hn : n ≠ 0) :
    getResponse (sendDA h s n) = getResponse s := by
  unfold sendDA
  rw [if_neg hn]

theorem getResponse_sendDSR (s : AnsiEscapeProcessor) (n : Int)
    (h5 : n ≠ 5) (h6 : n ≠ 6) (h15 : n ≠ 15) : getResponse (sendDSR s n) = getResponse s := by
  unfold sendDSR
  rw [if_neg h5, if_neg h15, if_neg h6]

theorem getN_writeResponse (s : AnsiEscapeProcessor) (r : Response) (d : Int) :
    getN (writeResponse s r) d = getN s d := rfl

/-- After `processSequence` a response is pending only for a CSI sequence ending in
`c` without `?` and with parameter 0, or ending in `n` with parameter 5, 6 or 15. -/
theorem getResponse_processSequence (h : Header) (s : AnsiEscapeProcessor) :
    getResponse (processSequence h s) = none ∨
    (s.isEscCsi = true ∧
      ((s.outbuf s.pBuf = 99 ∧ s.isCsiQuestion = false ∧ getN s 0 = 0) ∨
       (s.outbuf s.pBuf = 110 ∧ (getN s 0 = 5 ∨ getN s 0 = 6 ∨ getN s 0 = 15)))) := by
  have hnull : getResponse (writeResponse s .null) = none := rfl
  unfold processSequence
  simp only []
  split_ifs with h1 h2 h3 h4
  · left
    unfold simpleSwitch
    split_ifs
    · rw [getResponse_writeOutput, hnull]
    · rw [getResponse_moveToColumn, hnull]
    · rw [getResponse_moveToColumn, hnull]
    · rfl
    · rw [getResponse_moveToColumn, hnull]
    · exact hnull
  · left
    exact (getResponse_readAPCLoop h _ _ _).trans hnull
  · have hcsi : s.isEscCsi = true := h3
    have hnq : s.isCsiQuestion = false := by simpa [writeResponse] using h4
    unfold csiSwitch
    split_ifs with g1 g2 g3 g4 g5 g6 g7 g8
    · left; exact hnull
    · left; rw [getResponse_moveToColumn, hnull]
    · left; rw [getResponse_moveToColumn, hnull]
    · left; rw [getResponse_moveToColumn, hnull]
    · left; exact hnull
    · left; exact hnull
    · by_cases hn : getN s 0 = 0
      · right
        exact ⟨hcsi, Or.inl ⟨g7, hnq, hn⟩⟩
      · left
        exact (getResponse_sendDA h (writeResponse s .null) _ hn).trans hnull
    · by_cases hn : getN s 0 = 5 ∨ getN s 0 = 6 ∨ getN s 0 = 15
      · right
        exact ⟨hcsi, Or.inr ⟨g8, hn⟩⟩
      · left
        exact (getResponse_sendDSR (writeResponse s .null) _ (fun hx => hn (Or.inl hx))
          (fun hx => hn (Or.inr (Or.inl hx))) (fun hx => hn (Or.inr (Or.inr hx)))).trans hnull
    · left; exact hnull
  · have hcsi : s.isEscCsi = true := h3
    unfold csiQuestionSwitch
    split_ifs with g1 g2 g3 g4
    · left; rw [getResponse_setMode, hnull]
    · left; rw [getResponse_resetMode, hnull]
    · by_cases hn : getN s 0 = 5 ∨ getN s 0 = 6 ∨ getN s 0 = 15
      · right
        exact ⟨hcsi, Or.inr ⟨g3, hn⟩⟩
      · left
        exact (getResponse_sendDSR (writeResponse s .null) _ (fun hx => hn (Or.inl hx))
          (fun hx => hn (Or.inr (Or.inl hx))) (fun hx => hn (Or.inr (Or.inr hx)))).trans hnull
    · left; rw [getResponse_resetTerminal, hnull]
    · left; exact hnull
  · left; exact hnull

theorem getN_congr (s t : AnsiEscapeProcessor) (d : Int)
    (h1 : s.isCsiQuestion = t.isCsiQuestion) (h2 : s.isEscCsi = t.isEscCsi)
    (h3 : s.outbuf = t.outbuf) (h4 : s.pBuf = t.pBuf) : getN s d = getN t d := by
  rw [getN_eq, getN_eq, h1, h2, h3, h4]

/-- The parameter read once the closing byte is stored is the one the dispatcher
reads. -/
theorem getN_storeByte_accumState (s0 : AnsiEscapeProcessor) (bs : List Nat) (c : Nat)
    (d : Int) : getN (storeByte (accumState s0 bs) c) d = getN (closeState s0 bs c) d := by
  have hm := storedMem_snoc s0.outbuf (27 :: bs) c
  simp only [List.length_cons, List.cons_append] at hm
  exact getN_congr (storeByte (accumState s0 bs) c) (closeState s0 bs c) d rfl rfl hm rfl

theorem closeState_last (s0 : AnsiEscapeProcessor) (bs : List Nat) (c : Nat) :
    (closeState s0 bs c).outbuf (closeState s0 bs c).pBuf = c :=
  storedMem_last s0.outbuf bs c

/-! ## Claims C14 and C16 -/

/-- C16: in every reachable state, an `update` call that completes an escape
sequence leaves no response pending unless the sequence is a CSI `c` (without `?`)
with parameter 0 or a CSI / CSI-? `n` with parameter 5, 6 or 15; an `update` call
that does not complete a sequence leaves the pending response unchanged.  The
parameter is what `getN(0)` reads once the closing byte is stored. -/
theorem C16_pending_response (h : Header) (s : AnsiEscapeProcessor) (c : Nat)
    (hr : Reachable h s) :
    ((s.escState = .escStateEsc ∧ (update h s c).escState = .escStateNone) →
      getResponse (update h s c) = none ∨
      (s.isEscCsi = true ∧
        ((c = 99 ∧ s.isCsiQuestion = false ∧ getN (storeByte s c) 0 = 0) ∨
         (c = 110 ∧ (getN (storeByte s c) 0 = 5 ∨ getN (storeByte s c) 0 = 6 ∨
            getN (storeByte s c) 0 = 15))))) ∧
    (¬ (s.escState = .escStateEsc ∧ (update h s c).escState = .escStateNone) →
      getResponse (update h s c) = getResponse s) := by
  rcases reachable_shape h s hr with ⟨hidle, hp⟩ | ⟨s0, bs, -, -, -, -, -, hs⟩
  · constructor
    · intro hx
      rw [hidle] at hx
      exact absurd hx.1 (by decide)
    · intro _
      by_cases hc27 : c = 27
      · rw [hc27, update_idle_esc h s hidle hp]
        rfl
      · by_cases hw : s.isWrapping = true ∧ s.col = 71
        · rw [update_idle_wrap h s c hidle hp hc27 hw.1 hw.2]
          rfl
        · rw [update_idle_nowrap h s c hidle hp hc27 hw]
          rfl
  · rw [hs]
    by_cases hterm : terminates bs c = true ∨ h.MAXESCLEN < bs.length + 1
    · obtain ⟨h1, -, -, h4⟩ := update_close h s0 bs c hterm
      constructor
      · intro _
        rw [h4, getN_storeByte_accumState]
        rcases getResponse_processSequence h (closeState s0 bs c) with hn | ⟨hcsi, hcase⟩
        · left; exact hn
        · right
          rw [closeState_last] at hcase
          exact ⟨hcsi, hcase⟩
      · intro hx
        exact absurd ⟨rfl, h1⟩ hx
    · have ht : terminates bs c = false := by
        cases hb : terminates bs c
        · rfl
        · exact absurd (Or.inl hb) hterm
      have hl : bs.length + 1 ≤ h.MAXESCLEN := by
        by_contra hx
        exact hterm (Or.inr (by omega))
      rw [update_accum_step h s0 bs c ht hl]
      constructor
      · intro hx
        have hx2 : EscState.escStateEsc = EscState.escStateNone := hx.2
        cases hx2
      · intro _
        rfl

/-- Witness of C16: with the report of `ESC [ 6 n` pending, the next printable byte
leaves it pending. -/
theorem C16_pending_response_witness :
    getResponse (update sampleHeader
      (feed sampleHeader (construct blankMemory) [27, 91, 54, 110]) 97) =
    getResponse (feed sampleHeader (construct blankMemory) [27, 91, 54, 110]) :=
  (C16_pending_response sampleHeader
    (feed sampleHeader (construct blankMemory) [27, 91, 54, 110]) 97
    (reachable_feed sampleHeader _ _ (Reachable.construct blankMemory) (by decide))).2
    (by decide)

/-- ESC and escape bytes that do not terminate, fed to an idle processor. -/
theorem feed_esc_accum (h : Header) (s : AnsiEscapeProcessor) (bs : List Nat)
    (hidle : s.escState = .escStateNone) (hp : s.pBuf = 1)
    (hacc : accumulatesFrom [] bs = true) (hlen : bs.length ≤ h.MAXESCLEN) :
    feed h s (27 :: bs) = accumState s bs := by
  show feed h (update h s 27) bs = _
  rw [update_idle_esc h s hidle hp, feed_accum h s bs [] hacc (by simpa using hlen)]
  rfl

theorem feed_singleton (h : Header) (s : AnsiEscapeProcessor) (c : Nat) :
    feed h s [c] = update h s c := rfl

/-- The run behind C14 for any header whose cap lets three escape bytes through:
`ESC [ ? 7 h`, `ESC [ 7 1 G`, then `ESC [ 6` leaves the processor accumulating, and
the `update` call for the closing `n` returns CR, LF and the `n` itself. -/
theorem swallow_margin_run (h : Header) (mem : AnsiEscapeProcessor) (hM : 3 ≤ h.MAXESCLEN) :
    (feed h (construct mem)
        ([27, 91, 63, 55, 104] ++ [27, 91, 55, 49, 71] ++ [27, 91, 54])).escState
      = .escStateEsc ∧
    output (update h (feed h (construct mem)
        ([27, 91, 63, 55, 104] ++ [27, 91, 55, 49, 71] ++ [27, 91, 54])) 110)
      = [13, 10, 110] := by
  obtain ⟨hs2, hw2, hc2, -, -⟩ := absolute_move_margin_run h mem hM
  have hr2 : Reachable h (feed h (construct mem)
      ([27, 91, 63, 55, 104] ++ [27, 91, 55, 49, 71])) :=
    reachable_feed h _ _ (Reachable.construct mem) (by decide)
  have hp2 := reachable_idle_pBuf h _ hr2 hs2
  rw [feed_append]
  generalize feed h (construct mem) ([27, 91, 63, 55, 104] ++ [27, 91, 55, 49, 71]) = s2
    at hs2 hw2 hc2 hp2 ⊢
  have hc2b : s2.col = 71 := hc2
  have hlen : ([91, 54] : List Nat).length ≤ h.MAXESCLEN := by
    simp only [List.length_cons, List.length_nil]; omega
  have hacc : feed h s2 [27, 91, 54] = accumState s2 [91, 54] :=
    feed_esc_accum h s2 [91, 54] hs2 hp2 (by decide) hlen
  have hN := getN_csi_digits s2 [54] 110 0 (by decide) (by decide)
  have h6 : (if ([54] : List Nat) = [] then (0 : Int)
      else min (digitsValue [54] : Int) 2147483647) = 6 := by decide
  rw [h6] at hN
  have hT : processSequence h (closeState s2 [91, 54] 110) =
      sendDSR (writeResponse (closeState s2 [91, 54] 110) .null) 6 := by
    rw [processSequence_csi h s2 [54] 110 (by decide), csiSwitch_status, hN]
  have hm := feed_escape_margin h s2 [91, 54] 110 hs2 hp2 (by decide) hlen
    (Or.inl (by decide)) (by decide) (by decide) (by decide) _ hT
    ((sendDSR_quiet _ 6).escState.trans rfl)
    (by rw [sendDSR_isWrapping]; exact hw2) (by rw [(sendDSR_quiet _ 6).col]; exact hc2b)
  have hstep : feed h s2 ([27, 91, 54] ++ [110]) = feed h (feed h s2 [27, 91, 54]) [110] :=
    feed_append h s2 [27, 91, 54] [110]
  simp only [List.cons_append, List.nil_append] at hm hstep
  rw [hstep, hacc, feed_singleton] at hm
  rw [hacc]
  exact ⟨rfl, hm.1⟩

/-- C14 on the code: with auto-wrap on and the carriage at column 71, the processor
is accumulating `ESC [ 6`; the `update` call for the closing byte `n` returns the
buffer CR, LF, `n`: the escape byte itself is passed to the teletype. -/
theorem C14_escape_byte_sent_at_margin :
    (feed sampleHeader (construct blankMemory)
        ([27, 91, 63, 55, 104] ++ [27, 91, 55, 49, 71] ++ [27, 91, 54])).escState
      = .escStateEsc ∧
    output (update sampleHeader (feed sampleHeader (construct blankMemory)
        ([27, 91, 63, 55, 104] ++ [27, 91, 55, 49, 71] ++ [27, 91, 54])) 110)
      = [13, 10, 110] :=
  swallow_margin_run sampleHeader blankMemory (by decide)

/-! ### Parameter texts without a number -/

theorem strtol_of_not_numberAhead (str : List Nat) (hno : numberAhead str = false) :
    strtol str = none := by
  unfold numberAhead at hno
  unfold strtol
  rcases ht : List.dropWhile isspace str with _ | ⟨x, rest⟩
  · simp
  · rw [ht] at hno
    simp only [] at hno
    by_cases hx : x = 45 ∨ x = 43
    · rw [if_pos hx] at hno
      rcases rest with _ | ⟨y, rest2⟩
      · rcases hx with hx | hx <;> simp [hx]
      · simp only [] at hno
        rcases hx with hx | hx <;> simp [hx, List.takeWhile, hno]
    · rw [if_neg hx] at hno
      have h45 : x ≠ 45 := fun hh => hx (Or.inl hh)
      have h43 : x ≠ 43 := fun hh => hx (Or.inr hh)
      simp [h45, h43, List.takeWhile, hno]

theorem dropWhile_isspace_append_nul (l : List Nat) :
    List.dropWhile isspace (l ++ [0]) = List.dropWhile isspace l ++ [0] := by
  induction l with
  | nil => rfl
  | cons a l ih =>
    by_cases ha : isspace a = true
    · simp [List.dropWhile, ha, ih]
    · have ha2 : isspace a = false := by simpa using ha
      simp [List.dropWhile, ha2]

theorem numberAhead_append_nul (l : List Nat) : numberAhead (l ++ [0]) = numberAhead l := by
  unfold numberAhead
  rw [dropWhile_isspace_append_nul]
  rcases List.dropWhile isspace l with _ | ⟨x, rest⟩
  · rfl
  · rcases rest with _ | ⟨y, rest2⟩
    · by_cases hx : x = 45 ∨ x = 43
      · simp [hx, isdigit]
      · simp [hx]
    · rfl

/-- The parameter read for `ESC [ <text>` closed by `c`, when no number starts the
text: the default. -/
theorem getN_csi_default (s : AnsiEscapeProcessor) (ds : List Nat) (c : Nat) (d : Int)
    (hq : ds.head? ≠ some 63) (hno : numberAhead (ds ++ [c]) = false) :
    getN (writeResponse (closeState s (91 :: ds) c) .null) d = d := by
  have hno2 : numberAhead (ds ++ [c, 0]) = false := by
    have := numberAhead_append_nul (ds ++ [c])
    rw [List.append_assoc] at this
    rw [← hno]
    exact this
  rw [getN_csi s ds c d hq, strtol_of_not_numberAhead _ hno2]
  rfl

theorem getN_csiQuestion_default (s : AnsiEscapeProcessor) (ds : List Nat) (c : Nat) (d : Int)
    (hno : numberAhead (ds ++ [c]) = false) :
    getN (writeResponse (closeState s (91 :: 63 :: ds) c) .null) d = d := by
  have hno2 : numberAhead (ds ++ [c, 0]) = false := by
    have := numberAhead_append_nul (ds ++ [c])
    rw [List.append_assoc] at this
    rw [← hno]
    exact this
  rw [getN_csiQuestion s ds c d, strtol_of_not_numberAhead _ hno2]
  rfl

theorem accumulatesFrom_csi_text (ds : List Nat) (hna : ∀ b ∈ ds, isAlpha b = false) :
    accumulatesFrom [] (91 :: ds) = true := by
  have := accumulatesFrom_csi ds [91] rfl hna
  simpa [accumulatesFrom, terminates, isAlpha, isdigit] using this

/-- `ESC [ <text> <letter>` dispatched to a `moveToColumn`, for any parameter text
without letters, received while the soft-wrap block cannot fire. -/
theorem feed_csi_text_move (h : Header) (s : AnsiEscapeProcessor) (ds : List Nat) (c : Nat)
    (hidle : s.escState = .escStateNone) (hp : s.pBuf = 1)
    (hna : ∀ b ∈ ds, isAlpha b = false) (hq : ds.head? ≠ some 63)
    (hlen : ds.length + 1 ≤ h.MAXESCLEN) (hc : isAlpha c = true)
    (h0 : 0 ≤ s.col) (h71 : s.col ≤ 71) (hnw : ¬ (s.isWrapping = true ∧ s.col = 71))
    (target : Int)
    (hT : csiSwitch h (writeResponse (closeState s (91 :: ds) c) .null) c =
      moveToColumn (writeResponse (closeState s (91 :: ds) c) .null) target) :
    (feed h s (27 :: 91 :: (ds ++ [c]))).col = clampColumn target := by
  have hacc := accumulatesFrom_csi_text ds hna
  have hcc : c ≠ 95 ∧ c ≠ 91 ∧ c ≠ 63 := by
    simp only [isAlpha, Bool.or_eq_true, Bool.and_eq_true, decide_eq_true_eq] at hc
    omega
  have hterm : terminates (91 :: ds) c = true := by simp [terminates, hc]
  have hps := processSequence_csi h s ds c hq
  rw [hT] at hps
  exact (feed_escape_move h s (91 :: ds) c hidle hp hacc (by simpa using hlen) (Or.inl hterm)
    hcc.1 hcc.2.1 hcc.2.2 h0 h71 hnw _ target hps rfl rfl
    (by simp [writeResponse, closeState, openState, storedMem]) rfl rfl).1

/-! ## Claim C19 -/

theorem strtol_minus_two : (strtol ([45, 50] ++ [67, 0])).getD 1 = -2 := by decide

/-- The run behind C19 for any header whose cap lets three escape bytes through:
after "abcde", `ESC [ - 2 C`. -/
theorem signed_parameter_run (h : Header) (mem : AnsiEscapeProcessor) (hM : 3 ≤ h.MAXESCLEN) :
    getN (storeByte (feed h (feed h (construct mem) [97, 98, 99, 100, 101]) [27, 91, 45, 50])
      67) 1 = -2 ∧
    column (feed h (construct mem) ([97, 98, 99, 100, 101] ++ [27, 91, 45, 50, 67])) = 3 := by
  have hf1 := (feed_plain_nowrap h [97, 98, 99, 100, 101] (construct mem) rfl rfl rfl
    (by decide)).1
  have hw1 : (feed h (construct mem) [97, 98, 99, 100, 101]).isWrapping = false :=
    hf1.isWrapping
  have hc1 : (feed h (construct mem) [97, 98, 99, 100, 101]).col = 5 := by
    rw [feed_printable_col h _ (construct mem) rfl rfl rfl (by decide)
      (show (0 : Int) ≤ 71 by decide)]
    rfl
  rw [feed_append]
  generalize feed h (construct mem) [97, 98, 99, 100, 101] = s1 at hf1 hw1 hc1 ⊢
  have hlen : ([91, 45, 50] : List Nat).length ≤ h.MAXESCLEN := by
    simp only [List.length_cons, List.length_nil]; omega
  have hN := getN_csi s1 [45, 50] 67 1 (by decide)
  rw [strtol_minus_two] at hN
  constructor
  · rw [feed_esc_accum h s1 [91, 45, 50] hf1.escState hf1.pBuf (by decide) hlen,
      getN_storeByte_accumState]
    exact hN
  · have hT : csiSwitch h (writeResponse (closeState s1 [91, 45, 50] 67) .null) 67 =
        moveToColumn (writeResponse (closeState s1 [91, 45, 50] 67) .null)
          (toInt32 (s1.col + -2)) := by
      rw [csiSwitch_forward, hN]
      rfl
    have hm := feed_csi_text_move h s1 [45, 50] 67 hf1.escState hf1.pBuf (by decide)
      (by decide) (by simp only [List.length_cons, List.length_nil]; omega) (by decide)
      (by rw [hc1]; decide) (by rw [hc1]; decide) (by simp [hw1]) _ hT
    simp only [List.cons_append, List.nil_append] at hm
    show (feed h s1 [27, 91, 45, 50, 67]).col = 3
    rw [hm, hc1]
    decide

/-- C19 as stated fails: after "abcde" the sequence `ESC [ - 2 C` has `-`, not a
digit, right after the prefix, yet `getN(1)` reads -2 instead of the default 1, and
the column goes from 5 to 3 instead of 6. -/
theorem C19_signed_parameter_read :
    getN (storeByte (feed sampleHeader
      (feed sampleHeader (construct blankMemory) [97, 98, 99, 100, 101]) [27, 91, 45, 50])
      67) 1 = -2 ∧
    column (feed sampleHeader (construct blankMemory)
      ([97, 98, 99, 100, 101] ++ [27, 91, 45, 50, 67])) = 3 :=
  signed_parameter_run sampleHeader blankMemory (by decide)

/-- C19, amended: for a CSI or CSI-? sequence received in a reachable idle state whose
parameter text `ds` (the bytes after `ESC [` or `ESC [ ?`, none of them a letter) and
closing byte `c` hold no number in the sense of `strtol` (leading white space and one
optional sign are not followed by a decimal digit), `getN(d)` returns `d` once `c` is
stored; and such a CSI sequence closed by `C` with auto-wrap off moves the column to
`min(column + 1, 71)`.  (The header's cap must let the prefix and the text through.) -/
theorem C19_default_parameter (h : Header) (s : AnsiEscapeProcessor) (ds : List Nat)
    (c : Nat) (d : Int) (hr : Reachable h s) (hidle : s.escState = .escStateNone)
    (hna : ∀ b ∈ ds, isAlpha b = false) (hlen : ds.length + 2 ≤ h.MAXESCLEN)
    (hno : numberAhead (ds ++ [c]) = false) :
    (ds.head? ≠ some 63 → getN (storeByte (feed h s (27 :: 91 :: ds)) c) d = d) ∧
    getN (storeByte (feed h s (27 :: 91 :: 63 :: ds)) c) d = d ∧
    (c = 67 → ds.head? ≠ some 63 → s.isWrapping = false →
      column (feed h s (27 :: 91 :: (ds ++ [c]))) = min (column s + 1) 71) := by
  have hp := reachable_idle_pBuf h s hr hidle
  obtain ⟨h0, h71⟩ := reachable_col_range h s hr
  have hacc := accumulatesFrom_csi_text ds hna
  have hacc2 : accumulatesFrom [] (91 :: 63 :: ds) = true := by
    have hna2 : ∀ b ∈ 63 :: ds, isAlpha b = false := by
      intro b hb
      rcases List.mem_cons.1 hb with hb | hb
      · rw [hb]; decide
      · exact hna b hb
    exact accumulatesFrom_csi_text (63 :: ds) hna2
  refine ⟨?_, ?_, ?_⟩
  · intro hq
    rw [feed_esc_accum h s (91 :: ds) hidle hp hacc
      (by simp only [List.length_cons]; omega), getN_storeByte_accumState]
    exact getN_csi_default s ds c d hq hno
  · rw [feed_esc_accum h s (91 :: 63 :: ds) hidle hp hacc2
      (by simp only [List.length_cons]; omega), getN_storeByte_accumState]
    exact getN_csiQuestion_default s ds c d hno
  · intro hc hq hw
    subst hc
    have hN := getN_csi_default s ds 67 1 hq hno
    have hT : csiSwitch h (writeResponse (closeState s (91 :: ds) 67) .null) 67 =
        moveToColumn (writeResponse (closeState s (91 :: ds) 67) .null)
          (toInt32 (s.col + 1)) := by
      rw [csiSwitch_forward, hN]
      rfl
    have hm := feed_csi_text_move h s ds 67 hidle hp hna hq (by omega) (by decide) h0 h71
      (by simp [hw]) _ hT
    show (feed h s (27 :: 91 :: (ds ++ [67]))).col = min (s.col + 1) 71
    rw [hm, toInt32_of_range _ (by omega) (by omega)]
    unfold clampColumn
    omega

/-- Witness of the amended C19: after "abc", `ESC [ ; C` moves one column right. -/
theorem C19_default_parameter_witness :
    column (feed sampleHeader (feed sampleHeader (construct blankMemory) [97, 98, 99])
      (27 :: 91 :: ([59] ++ [67]))) = 4 :=
  (C19_default_parameter sampleHeader
    (feed sampleHeader (construct blankMemory) [97, 98, 99]) [59] 67 1
    (Reachable.update _ 99 (Reachable.update _ 98 (Reachable.update _ 97
      (Reachable.construct blankMemory) (by decide)) (by decide)) (by decide))
    rfl (by decide) (by decide) (by decide)).2.2 rfl (by decide) rfl

end AnsiEscapeProcessor

end ASR33
